import Mathlib

/-!
# simple_concurrent_queue: a shallow embedding of `concurrent_queue.h`

The header defines the storage classes `internal::ConcurrentQueueContainer`
(a ring buffer over a `std::vector` for a finite `MaxSize`, a `std::queue`
for `MaxSize = ConcurrentQueueUnlimitedSize`) and the monitor
`ConcurrentQueue` built on one of them.

Modelling decisions:

* `std::size_t` is taken to be 64 bits wide; the only place where wrap-around
  can be observed is `MaxSize - 1` for `MaxSize = 0`, see `decSize`.
* a slot of the ring buffer's vector is `some v` while it holds a live
  element and `none` after `data_[head_].~T()` has run on it; the vector
  itself still counts the slot, so its copy constructs an object there and
  its destructor runs `~T()` there again;
* a failed `assert`, an out-of-range `data_[i]` and a read of a destroyed
  slot make the storage operation return `none`;
* every public operation of `ConcurrentQueue` runs under `lock_`, so a call
  is one atomic step of the queue state.  A call whose condition-variable
  predicate is false in the current state cannot take its step: its
  outcome is `Outcome.wait`.  Notifications do not change the state and are
  not modelled.
-/

namespace fox_cq

/-- Largest value of `std::size_t`. -/
def SIZE_MAX : Nat := 2 ^ 64 - 1

/-- Line 18: `static_cast<std::size_t>(-1)`. -/
def ConcurrentQueueUnlimitedSize : Nat := SIZE_MAX

/-- The `std::size_t` expression `MaxSize - 1`, which wraps at `MaxSize = 0`. -/
def decSize (MaxSize : Nat) : Nat := (MaxSize + SIZE_MAX) % (SIZE_MAX + 1)

namespace internal

/-- Primary template `ConcurrentQueueContainer<T, MaxSize>`: the members
`data_`, `head_`, `tail_`, `size_`. -/
structure ConcurrentQueueContainer (T : Type) where
  data_ : List (Option T)
  head_ : Nat
  tail_ : Nat
  size_ : Nat
deriving DecidableEq

namespace ConcurrentQueueContainer

variable {T : Type}

/-- Constructor, lines 26-28 (`reserve` does not change the vector's size). -/
def ctor : ConcurrentQueueContainer T :=
  { data_ := [], head_ := 0, tail_ := 0, size_ := 0 }

/-- Lines 35-49, `Push(U&& value)`. -/
def Push (MaxSize : Nat) (c : ConcurrentQueueContainer T) (value : T) :
    Option (ConcurrentQueueContainer T) :=
  if c.size_ < MaxSize then
    some
      { data_ :=
          if c.data_.length ≤ c.tail_ then c.data_ ++ [some value]
          else c.data_.set c.tail_ (some value)
        head_ := c.head_
        tail_ := if c.tail_ < decSize MaxSize then c.tail_ + 1 else 0
        size_ := c.size_ + 1 }
  else none

/-- Lines 66-76, `Pop(T& value)`: the value moved out of `data_[head_]` and
the container afterwards. -/
def Pop (MaxSize : Nat) (c : ConcurrentQueueContainer T) :
    Option (T × ConcurrentQueueContainer T) :=
  if 0 < c.size_ then
    match c.data_[c.head_]? with
    | some (some value) =>
      some (value,
        { data_ := c.data_.set c.head_ none
          head_ := if c.head_ < decSize MaxSize then c.head_ + 1 else 0
          tail_ := c.tail_
          size_ := c.size_ - 1 })
    | _ => none
  else none

/-- Line 89. -/
def Size (c : ConcurrentQueueContainer T) : Nat := c.size_

/-- Line 91. -/
def Capacity (MaxSize : Nat) (_c : ConcurrentQueueContainer T) : Nat := MaxSize

/-- Line 93. -/
def Empty (c : ConcurrentQueueContainer T) : Bool := c.size_ == 0

/-- Line 95. -/
def Full (MaxSize : Nat) (c : ConcurrentQueueContainer T) : Bool := c.size_ == MaxSize

/-- State left in the source of the defaulted move (lines 30, 33): the
vector is taken away, the three `std::size_t` members are copied. -/
def MovedFrom (c : ConcurrentQueueContainer T) : ConcurrentQueueContainer T :=
  { c with data_ := [] }

/-- Slots of the vector made by `std::vector`'s copy: an object is
constructed in every slot, from the live element of the source slot or, for
a slot whose object `Pop` has destroyed, from what is left there (`stale i`
for the slot at index `i`; the arguments are the index of the first slot and
the source slots). -/
def copySlots (stale : Nat → T) : Nat → List (Option T) → List (Option T)
  | _, [] => []
  | i, s :: ss => some (s.getD (stale i)) :: copySlots stale (i + 1) ss

/-- The defaulted copy (lines 29, 31): `data_` is copied by `std::vector`,
the three `std::size_t` members are copied. -/
def Copied (stale : Nat → T) (c : ConcurrentQueueContainer T) : ConcurrentQueueContainer T :=
  { c with data_ := copySlots stale 0 c.data_ }

/-- Content of the slot that is `i` places behind the front. -/
def slot (MaxSize : Nat) (c : ConcurrentQueueContainer T) (i : Nat) : Option T :=
  (c.data_[(c.head_ + i) % MaxSize]?).join

/-- Elements held by the ring buffer, front first: the `size_` slots
`head_`, `head_ + 1`, ... taken modulo `MaxSize`. -/
def toList (MaxSize : Nat) (c : ConcurrentQueueContainer T) : List T :=
  (List.range c.size_).filterMap (slot MaxSize c)

/-- Storage invariant of the ring buffer: the indices are in range, `tail_`
is `size_` places behind `head_`, the vector has grown exactly as far as
`tail_` went before its first wrap, the `size_` slots from `head_` on hold
live elements and every other slot of the vector is vacated. -/
structure Inv (MaxSize : Nat) (c : ConcurrentQueueContainer T) : Prop where
  head_lt : c.head_ < MaxSize
  tail_lt : c.tail_ < MaxSize
  size_le : c.size_ ≤ MaxSize
  tail_eq : c.tail_ = (c.head_ + c.size_) % MaxSize
  length_le : c.data_.length ≤ MaxSize
  length_eq : c.data_.length < MaxSize → c.data_.length = c.tail_
  live : ∀ i, i < c.size_ → ∃ v, c.data_[(c.head_ + i) % MaxSize]? = some (some v)
  vacated : ∀ j, j < c.data_.length →
    (∀ i, i < c.size_ → j ≠ (c.head_ + i) % MaxSize) → c.data_[j]? = some none

end ConcurrentQueueContainer

/-- A call of `Push(U&&)` or `Pop(T&)` on the ring buffer. -/
inductive ContainerCall (T : Type) where
  | Push (value : T)
  | Pop
deriving DecidableEq

namespace ConcurrentQueueContainer

variable {T : Type}

/-- Precondition of a call: the `assert` of lines 37 and 67. -/
def pre (MaxSize : Nat) (c : ConcurrentQueueContainer T) : ContainerCall T → Bool
  | .Push _ => decide (c.size_ < MaxSize)
  | .Pop => decide (0 < c.size_)

/-- One call on the ring buffer: the state it leaves. -/
def step (MaxSize : Nat) (c : ConcurrentQueueContainer T) :
    ContainerCall T → Option (ConcurrentQueueContainer T)
  | .Push value => c.Push MaxSize value
  | .Pop => (c.Pop MaxSize).map (fun p => p.2)

/-- Calls applied one after the other; `none` as soon as one of them fails. -/
def run (MaxSize : Nat) (c : ConcurrentQueueContainer T) :
    List (ContainerCall T) → Option (ConcurrentQueueContainer T)
  | [] => some c
  | k :: ks =>
    match step MaxSize c k with
    | some c' => run MaxSize c' ks
    | none => none

/-- Every call of the list is made in a state that meets its precondition. -/
def meets (MaxSize : Nat) (c : ConcurrentQueueContainer T) :
    List (ContainerCall T) → Bool
  | [] => true
  | k :: ks =>
    pre MaxSize c k &&
    match step MaxSize c k with
    | some c' => meets MaxSize c' ks
    | none => true

end ConcurrentQueueContainer

/-- Specialisation `ConcurrentQueueContainer<T, ConcurrentQueueUnlimitedSize>`:
the member `data_`, a `std::queue<T>` listed front first. -/
structure ConcurrentQueueContainerUnlimited (T : Type) where
  data_ : List T
deriving DecidableEq

namespace ConcurrentQueueContainerUnlimited

variable {T : Type}

/-- Line 107. -/
def ctor : ConcurrentQueueContainerUnlimited T := { data_ := [] }

/-- Lines 114-117. -/
def Push (c : ConcurrentQueueContainerUnlimited T) (value : T) :
    Option (ConcurrentQueueContainerUnlimited T) :=
  some { data_ := c.data_ ++ [value] }

/-- Lines 121-125. -/
def Pop (c : ConcurrentQueueContainerUnlimited T) :
    Option (T × ConcurrentQueueContainerUnlimited T) :=
  match c.data_ with
  | [] => none
  | value :: rest => some (value, { data_ := rest })

/-- Line 132. -/
def Size (c : ConcurrentQueueContainerUnlimited T) : Nat := c.data_.length

/-- Line 134. -/
def Empty (c : ConcurrentQueueContainerUnlimited T) : Bool := c.data_.isEmpty

/-- Line 136. -/
def Full (_c : ConcurrentQueueContainerUnlimited T) : Bool := false

/-- State left in the source of the defaulted move (lines 109, 112). -/
def MovedFrom (_c : ConcurrentQueueContainerUnlimited T) :
    ConcurrentQueueContainerUnlimited T :=
  { data_ := [] }

/-- The defaulted copy (lines 108, 110): `std::queue` copies its elements,
all of them live. -/
def Copied (c : ConcurrentQueueContainerUnlimited T) : ConcurrentQueueContainerUnlimited T :=
  { data_ := c.data_ }

end ConcurrentQueueContainerUnlimited

/-- The storage class that `ConcurrentQueueContainer<T, MaxSize>` names for
a payload type `T`: the primary template or the unlimited specialisation. -/
inductive Storage (T : Type) where
  | limited (c : ConcurrentQueueContainer T)
  | unlimited (c : ConcurrentQueueContainerUnlimited T)
deriving DecidableEq

/-- What the template `ConcurrentQueue` uses of its `data_` member: the
template argument `MaxSize` and the member functions of the storage class
(`S` the class, `V` the argument pack of `Push` and `Pop`). `Copied stale`
is the defaulted copy, where `stale i` is what a slot at index `i` whose
object has been destroyed still yields when it is copied. -/
structure ContainerOps (S V : Type) where
  MaxSize : Nat
  ctor : S
  Push : S → V → Option S
  Pop : S → Option (V × S)
  Size : S → Nat
  Empty : S → Bool
  Full : S → Bool
  MovedFrom : S → S
  Copied : (Nat → V) → S → S

/-- Template instantiation for a payload type: the specialisation is chosen
by `MaxSize` at construction, each member function is the one of the class
the object belongs to. -/
def Storage.ops (T : Type) (MaxSize : Nat) : ContainerOps (Storage T) T where
  MaxSize := MaxSize
  ctor :=
    if MaxSize = ConcurrentQueueUnlimitedSize then
      .unlimited ConcurrentQueueContainerUnlimited.ctor
    else .limited ConcurrentQueueContainer.ctor
  Push := fun s value =>
    match s with
    | .limited c => (c.Push MaxSize value).map .limited
    | .unlimited c => (c.Push value).map .unlimited
  Pop := fun s =>
    match s with
    | .limited c => (c.Pop MaxSize).map (fun p => (p.1, .limited p.2))
    | .unlimited c => c.Pop.map (fun p => (p.1, .unlimited p.2))
  Size := fun s =>
    match s with
    | .limited c => c.Size
    | .unlimited c => c.Size
  Empty := fun s =>
    match s with
    | .limited c => c.Empty
    | .unlimited c => c.Empty
  Full := fun s =>
    match s with
    | .limited c => c.Full MaxSize
    | .unlimited c => c.Full
  MovedFrom := fun s =>
    match s with
    | .limited c => .limited c.MovedFrom
    | .unlimited c => .unlimited c.MovedFrom
  Copied := fun stale s =>
    match s with
    | .limited c => .limited (c.Copied stale)
    | .unlimited c => .unlimited c.Copied

/-- Specialisation `ConcurrentQueueContainer<void, MaxSize>`: the member
`size_`. -/
structure ConcurrentQueueContainerVoid where
  size_ : Nat
deriving DecidableEq

namespace ConcurrentQueueContainerVoid

/-- Line 145. -/
def ctor : ConcurrentQueueContainerVoid := { size_ := 0 }

/-- Lines 152-155. -/
def Push (MaxSize : Nat) (c : ConcurrentQueueContainerVoid) :
    Option ConcurrentQueueContainerVoid :=
  if c.size_ < MaxSize then some { size_ := c.size_ + 1 } else none

/-- Lines 157-160. -/
def Pop (c : ConcurrentQueueContainerVoid) : Option ConcurrentQueueContainerVoid :=
  if 0 < c.size_ then some { size_ := c.size_ - 1 } else none

/-- Line 162. -/
def Size (c : ConcurrentQueueContainerVoid) : Nat := c.size_

/-- Line 164. -/
def Capacity (MaxSize : Nat) (_c : ConcurrentQueueContainerVoid) : Nat := MaxSize

/-- Line 166. -/
def Empty (c : ConcurrentQueueContainerVoid) : Bool := c.size_ == 0

/-- Line 168. -/
def Full (MaxSize : Nat) (c : ConcurrentQueueContainerVoid) : Bool := c.size_ == MaxSize

end ConcurrentQueueContainerVoid

/-- Specialisation `ConcurrentQueueContainer<void, ConcurrentQueueUnlimitedSize>`:
the member `size_`. -/
structure ConcurrentQueueContainerVoidUnlimited where
  size_ : Nat
deriving DecidableEq

namespace ConcurrentQueueContainerVoidUnlimited

/-- Line 177. -/
def ctor : ConcurrentQueueContainerVoidUnlimited := { size_ := 0 }

/-- Line 184: `++size_` on a `std::size_t` with nothing to bound it. -/
def Push (c : ConcurrentQueueContainerVoidUnlimited) :
    Option ConcurrentQueueContainerVoidUnlimited :=
  some { size_ := (c.size_ + 1) % (SIZE_MAX + 1) }

/-- Lines 186-189. -/
def Pop (c : ConcurrentQueueContainerVoidUnlimited) :
    Option ConcurrentQueueContainerVoidUnlimited :=
  if 0 < c.size_ then some { size_ := c.size_ - 1 } else none

/-- Line 191. -/
def Size (c : ConcurrentQueueContainerVoidUnlimited) : Nat := c.size_

/-- Line 193. -/
def Empty (c : ConcurrentQueueContainerVoidUnlimited) : Bool := c.size_ == 0

/-- Line 195. -/
def Full (_c : ConcurrentQueueContainerVoidUnlimited) : Bool := false

end ConcurrentQueueContainerVoidUnlimited

/-- The storage class that `ConcurrentQueueContainer<void, MaxSize>` names:
the bounded token counter or the unlimited one. -/
inductive TokenStorage where
  | limited (c : ConcurrentQueueContainerVoid)
  | unlimited (c : ConcurrentQueueContainerVoidUnlimited)
deriving DecidableEq

/-- Template instantiation for `T = void`: `Push()` and `Pop()` take no
argument, so the argument pack is `Unit`; the defaulted move copies
`size_`. -/
def TokenStorage.ops (MaxSize : Nat) : ContainerOps TokenStorage Unit where
  MaxSize := MaxSize
  ctor :=
    if MaxSize = ConcurrentQueueUnlimitedSize then
      .unlimited ConcurrentQueueContainerVoidUnlimited.ctor
    else .limited ConcurrentQueueContainerVoid.ctor
  Push := fun s _ =>
    match s with
    | .limited c => (c.Push MaxSize).map .limited
    | .unlimited c => c.Push.map .unlimited
  Pop := fun s =>
    match s with
    | .limited c => c.Pop.map (fun c' => ((), .limited c'))
    | .unlimited c => c.Pop.map (fun c' => ((), .unlimited c'))
  Size := fun s =>
    match s with
    | .limited c => c.Size
    | .unlimited c => c.Size
  Empty := fun s =>
    match s with
    | .limited c => c.Empty
    | .unlimited c => c.Empty
  Full := fun s =>
    match s with
    | .limited c => c.Full MaxSize
    | .unlimited c => c.Full
  MovedFrom := fun s => s
  Copied := fun _ s => s

/-- Number of tokens held. -/
def TokenStorage.count : TokenStorage → Nat
  | .limited c => c.size_
  | .unlimited c => c.size_

/-- The tokens held, as a list. -/
def TokenStorage.toList (s : TokenStorage) : List Unit :=
  List.replicate s.count ()

/-- Well-formed storage of a `ConcurrentQueue<void, MaxSize>`: the class is
the one `MaxSize` selects and the count is within its range. -/
def TokenStorage.Inv (MaxSize : Nat) : TokenStorage → Prop
  | .limited c => MaxSize ≠ ConcurrentQueueUnlimitedSize ∧ c.size_ ≤ MaxSize
  | .unlimited c => MaxSize = ConcurrentQueueUnlimitedSize ∧ c.size_ ≤ SIZE_MAX

/-- Elements held by the storage, front first. -/
def Storage.toList {T : Type} (MaxSize : Nat) : Storage T → List T
  | .limited c => c.toList MaxSize
  | .unlimited c => c.data_

/-- Well-formed storage of a `ConcurrentQueue<T, MaxSize>`: the class is the
one `MaxSize` selects and, for the ring buffer, the storage invariant holds
(with `MaxSize = 0` the buffer stays as constructed). -/
def Storage.Inv {T : Type} (MaxSize : Nat) : Storage T → Prop
  | .limited c =>
    MaxSize ≠ ConcurrentQueueUnlimitedSize ∧
      (if MaxSize = 0 then c = ConcurrentQueueContainer.ctor else c.Inv MaxSize)
  | .unlimited _ => MaxSize = ConcurrentQueueUnlimitedSize

/-- Data refinement of a storage class to the list of its elements: under
the invariant `I` the member functions act on the list `abs s` as a FIFO
of capacity `ops.MaxSize` (no capacity for the unlimited size). -/
structure ContainerOps.Refines {S V : Type} (ops : ContainerOps S V)
    (I : S → Prop) (abs : S → List V) : Prop where
  ctor_inv : I ops.ctor
  ctor_abs : abs ops.ctor = []
  size_eq : ∀ s, I s → ops.Size s = (abs s).length
  empty_eq : ∀ s, I s → ops.Empty s = (abs s).isEmpty
  full_eq : ∀ s, I s → ops.MaxSize ≠ ConcurrentQueueUnlimitedSize →
    ops.Full s = decide ((abs s).length = ops.MaxSize)
  size_le : ∀ s, I s → ops.MaxSize ≠ ConcurrentQueueUnlimitedSize →
    (abs s).length ≤ ops.MaxSize
  push : ∀ s v, I s →
    (ops.MaxSize ≠ ConcurrentQueueUnlimitedSize → (abs s).length < ops.MaxSize) →
    ∃ s', ops.Push s v = some s' ∧ I s' ∧ abs s' = abs s ++ [v]
  pop : ∀ s x xs, I s → abs s = x :: xs →
    ∃ s', ops.Pop s = some (x, s') ∧ I s' ∧ abs s' = xs

end internal

open internal

/-- Members `data_` and `finished_` of `ConcurrentQueue<T, MaxSize>` (the
mutex and the condition variables carry no data). -/
structure ConcurrentQueue (S : Type) where
  data_ : S
  finished_ : Bool
deriving DecidableEq

/-- Result of one call on the monitor. -/
inductive Outcome (α : Type) where
  /-- the call returns -/
  | ret (a : α)
  /-- the call is blocked in `wait`: its predicate is false -/
  | wait
  /-- a failed `assert` or undefined behaviour -/
  | fault
deriving DecidableEq

namespace ConcurrentQueue

variable {S V : Type}

/-- Line 205 with the member initialiser of line 393. -/
def ctor (ops : ContainerOps S V) : ConcurrentQueue S :=
  { data_ := ops.ctor, finished_ := false }

/-- Line 323. -/
def UnlimitedSize (ops : ContainerOps S V) : Bool :=
  ops.MaxSize == ConcurrentQueueUnlimitedSize

/-- Line 326. -/
def LimitedSize (ops : ContainerOps S V) : Bool :=
  ops.MaxSize != ConcurrentQueueUnlimitedSize

/-- Lines 255-261. -/
def SetFinish (q : ConcurrentQueue S) : ConcurrentQueue S :=
  { q with finished_ := true }

/-- Lines 317-320. -/
def Size (ops : ContainerOps S V) (q : ConcurrentQueue S) : Nat :=
  ops.Size q.data_

/-- Lines 335-351. -/
def PushImpl (ops : ContainerOps S V) (q : ConcurrentQueue S) (item : V) :
    Outcome (ConcurrentQueue S) :=
  if LimitedSize ops && ops.Full q.data_ && !q.finished_ then .wait
  else if q.finished_ then .ret q
  else
    match ops.Push q.data_ item with
    | some d => .ret { q with data_ := d }
    | none => .fault

/-- Lines 353-375; `result` is the caller's variable, returned with the
value it holds after the call. -/
def PopImpl (ops : ContainerOps S V) (q : ConcurrentQueue S) (result : V) :
    Outcome (Bool × V × ConcurrentQueue S) :=
  if !(!ops.Empty q.data_ || q.finished_) then .wait
  else if !ops.Empty q.data_ then
    match ops.Pop q.data_ with
    | some (value, d) => .ret (true, value, { q with data_ := d })
    | none => .fault
  else if q.finished_ then .ret (false, result, q)
  else .fault

/-- Lines 377-387. -/
def TryPopImpl (ops : ContainerOps S V) (q : ConcurrentQueue S) (result : V) :
    Outcome (Bool × V × ConcurrentQueue S) :=
  if !ops.Empty q.data_ then
    match ops.Pop q.data_ with
    | some (value, d) => .ret (true, value, { q with data_ := d })
    | none => .fault
  else .ret (false, result, q)

/-- Lines 224-235, `operator=(const ConcurrentQueue&)` with `this != &other`:
`data_ = other.data_` is the defaulted copy of the storage class. The
assigned queue and the source afterwards. -/
def copyAssign (ops : ContainerOps S V) (stale : Nat → V) (_self other : ConcurrentQueue S) :
    ConcurrentQueue S × ConcurrentQueue S :=
  ({ data_ := ops.Copied stale other.data_, finished_ := other.finished_ }, other)

/-- Lines 236-247, `operator=(ConcurrentQueue&&)` with `this != &other`. -/
def moveAssign (ops : ContainerOps S V) (_self other : ConcurrentQueue S) :
    ConcurrentQueue S × ConcurrentQueue S :=
  ({ data_ := other.data_, finished_ := other.finished_ },
   { data_ := ops.MovedFrom other.data_, finished_ := other.finished_ })

/-- Lines 206-214, copy constructor: the members are default-initialised
(line 393), then assigned as in `operator=`. The new queue and the source
afterwards. -/
def copyCtor (ops : ContainerOps S V) (stale : Nat → V) (other : ConcurrentQueue S) :
    ConcurrentQueue S × ConcurrentQueue S :=
  copyAssign ops stale (ctor ops) other

/-- Lines 215-223, move constructor. -/
def moveCtor (ops : ContainerOps S V) (other : ConcurrentQueue S) :
    ConcurrentQueue S × ConcurrentQueue S :=
  moveAssign ops (ctor ops) other

end ConcurrentQueue

/-- A call of the public interface with its arguments (for `Pop` and
`TryPop` the value of the caller's variable before the call). -/
inductive Call (V : Type) where
  | Push (item : V)
  | Pop (result : V)
  | TryPop (result : V)
  | SetFinish
  | Size
deriving DecidableEq

/-- What a call hands back to its caller. -/
inductive Ret (V : Type) where
  /-- `Push` and `SetFinish` return `void` -/
  | void
  /-- `Pop` and `TryPop`: the `bool` and the caller's variable afterwards -/
  | pop (ok : Bool) (result : V)
  /-- `Size` -/
  | size (n : Nat)
deriving DecidableEq

/-- The same call on a token queue: the payload is dropped. -/
def Call.token {V : Type} : Call V → Call Unit
  | .Push _ => .Push ()
  | .Pop _ => .Pop ()
  | .TryPop _ => .TryPop ()
  | .SetFinish => .SetFinish
  | .Size => .Size

/-- What a returned value says without its payload: the `bool` of `Pop`
and `TryPop`, the number of `Size`. -/
def Ret.token {V : Type} : Ret V → Ret Unit
  | .void => .void
  | .pop ok _ => .pop ok ()
  | .size n => .size n

namespace ConcurrentQueue

variable {S V : Type}

/-- One call on the queue: what it returns and the state it leaves. -/
def call (ops : ContainerOps S V) (q : ConcurrentQueue S) :
    Call V → Outcome (Ret V × ConcurrentQueue S)
  | .Push item =>
    match PushImpl ops q item with
    | .ret q' => .ret (.void, q')
    | .wait => .wait
    | .fault => .fault
  | .Pop result =>
    match PopImpl ops q result with
    | .ret (ok, r, q') => .ret (.pop ok r, q')
    | .wait => .wait
    | .fault => .fault
  | .TryPop result =>
    match TryPopImpl ops q result with
    | .ret (ok, r, q') => .ret (.pop ok r, q')
    | .wait => .wait
    | .fault => .fault
  | .SetFinish => .ret (.void, SetFinish q)
  | .Size => .ret (.size (Size ops q), q)

/-- Calls applied one at a time: the outcome of each call, up to and
including the first one that does not return. -/
def trace (ops : ContainerOps S V) (q : ConcurrentQueue S) :
    List (Call V) → List (Outcome (Ret V))
  | [] => []
  | c :: cs =>
    match call ops q c with
    | .ret (r, q') => .ret r :: trace ops q' cs
    | .wait => [.wait]
    | .fault => [.fault]

/-- State after the calls of the list, stopping at the first call that
does not return. -/
def final (ops : ContainerOps S V) (q : ConcurrentQueue S) :
    List (Call V) → ConcurrentQueue S
  | [] => q
  | c :: cs =>
    match call ops q c with
    | .ret (_, q') => final ops q' cs
    | _ => q

/-- Every call of the list returns (none waits, none faults). -/
def completes (ops : ContainerOps S V) (q : ConcurrentQueue S) :
    List (Call V) → Bool
  | [] => true
  | c :: cs =>
    match call ops q c with
    | .ret (_, q') => completes ops q' cs
    | _ => false

/-- Values handed out by the `Pop` and `TryPop` calls that return `true`,
in call order. -/
def popped (ops : ContainerOps S V) (q : ConcurrentQueue S) :
    List (Call V) → List V
  | [] => []
  | c :: cs =>
    match call ops q c with
    | .ret (.pop true r, q') => r :: popped ops q' cs
    | .ret (_, q') => popped ops q' cs
    | _ => []

/-- Values of the `Push` calls made while `finished_` is false, in call
order. -/
def pushed (ops : ContainerOps S V) (q : ConcurrentQueue S) :
    List (Call V) → List V
  | [] => []
  | c :: cs =>
    match call ops q c with
    | .ret (_, q') =>
      match c with
      | .Push item => if q.finished_ then pushed ops q' cs else item :: pushed ops q' cs
      | _ => pushed ops q' cs
    | _ => []

/-- At every `Push` of the sequence, applied to `q` one call at a time,
the occupancy `Size()` is below `C`. -/
def pushesBelow (ops : ContainerOps S V) (C : Nat) (q : ConcurrentQueue S) :
    List (Call V) → Bool
  | [] => true
  | c :: cs =>
    (match c with
      | .Push _ => decide (Size ops q < C)
      | _ => true) &&
    match call ops q c with
    | .ret (_, q') => pushesBelow ops C q' cs
    | _ => true

end ConcurrentQueue

/-! ## List-level description of the calls -/

/-- List-level state of a queue: its elements, front first, and the
finished flag. -/
structure Model (V : Type) where
  elems : List V
  finished : Bool
deriving DecidableEq

/-- What one call does in terms of the list of elements (an auxiliary
description for reasoning about sequences of calls; `call_refines` proves
that the code agrees with it). -/
def Model.call {V : Type} (MaxSize : Nat) (m : Model V) :
    Call V → Outcome (Ret V × Model V)
  | .Push item =>
    if MaxSize ≠ ConcurrentQueueUnlimitedSize ∧ m.elems.length = MaxSize ∧ m.finished = false
    then .wait
    else if m.finished then .ret (.void, m)
    else .ret (.void, { m with elems := m.elems ++ [item] })
  | .Pop result =>
    match m.elems with
    | x :: xs => .ret (.pop true x, { m with elems := xs })
    | [] => if m.finished then .ret (.pop false result, m) else .wait
  | .TryPop result =>
    match m.elems with
    | x :: xs => .ret (.pop true x, { m with elems := xs })
    | [] => .ret (.pop false result, m)
  | .SetFinish => .ret (.void, { m with finished := true })
  | .Size => .ret (.size m.elems.length, m)

/-- List-level view of a queue state. -/
def ConcurrentQueue.model {S V : Type} (abs : S → List V) (q : ConcurrentQueue S) : Model V :=
  { elems := abs q.data_, finished := q.finished_ }

/-- Apply a function to the value a call returns. -/
def Outcome.map {α β : Type} (f : α → β) : Outcome α → Outcome β
  | .ret a => .ret (f a)
  | .wait => .wait
  | .fault => .fault

/-- List-level state without the payloads. -/
def Model.token {V : Type} (m : Model V) : Model Unit :=
  { elems := m.elems.map (fun _ => ()), finished := m.finished }

/-! ## Ring buffer: arithmetic of the indices and the storage invariant -/

theorem decSize_eq {C : Nat} (h1 : 1 ≤ C) (h2 : C ≤ SIZE_MAX) : decSize C = C - 1 := by
  unfold decSize
  have e : C + SIZE_MAX = (C - 1) + (SIZE_MAX + 1) := by omega
  rw [e, Nat.add_mod_right]
  apply Nat.mod_eq_of_lt
  omega

theorem next_eq_mod {C i : Nat} (h1 : 1 ≤ C) (h2 : C ≤ SIZE_MAX) (hi : i < C) :
    (if i < decSize C then i + 1 else 0) = (i + 1) % C := by
  rw [decSize_eq h1 h2]
  split
  · rw [Nat.mod_eq_of_lt (by omega)]
  · have : i + 1 = C := by omega
    rw [this, Nat.mod_self]

theorem ring_idx_inj {C h i j : Nat} (hi : i < C) (hj : j < C)
    (e : (h + i) % C = (h + j) % C) : i = j := by
  have h1 : Nat.ModEq C (h + i) (h + j) := e
  have h2 := Nat.ModEq.add_left_cancel' h h1
  exact Nat.ModEq.eq_of_lt_of_lt h2 hi hj

theorem filterMap_length_of_isSome {α β : Type} (f : α → Option β) (l : List α)
    (h : ∀ a ∈ l, (f a).isSome) : (l.filterMap f).length = l.length := by
  induction l with
  | nil => rfl
  | cons a l ih =>
    have ha := h a (by simp)
    obtain ⟨b, hb⟩ := Option.isSome_iff_exists.mp ha
    rw [List.filterMap_cons_some hb]
    simp [ih (fun x hx => h x (by simp [hx]))]

namespace internal.ConcurrentQueueContainer
variable {T : Type}

theorem slot_of_live {C : Nat} {c : ConcurrentQueueContainer T} (hc : c.Inv C) {i : Nat}
    (hi : i < c.size_) : ∃ v, slot C c i = some v := by
  obtain ⟨v, hv⟩ := hc.live i hi
  exact ⟨v, by simp [slot, hv]⟩

theorem ring_toList_length {C : Nat} {c : ConcurrentQueueContainer T} (hc : c.Inv C) :
    (c.toList C).length = c.size_ := by
  unfold toList
  rw [filterMap_length_of_isSome, List.length_range]
  intro i hi
  obtain ⟨v, hv⟩ := slot_of_live hc (List.mem_range.mp hi)
  simp [hv]

theorem ring_ctor_inv {C : Nat} (h1 : 1 ≤ C) : (ctor : ConcurrentQueueContainer T).Inv C where
  head_lt := h1
  tail_lt := h1
  size_le := Nat.zero_le _
  tail_eq := by simp [ctor]
  length_le := by simp [ctor]
  length_eq := by simp [ctor]
  live := by intro i hi; simp [ctor] at hi
  vacated := by intro j hj; simp [ctor] at hj

/-- Vector after `Push`: slot `tail_` holds the value, the rest is as before. -/
theorem push_data_getElem? {C : Nat} {c : ConcurrentQueueContainer T} (hc : c.Inv C)
    (v : T) (k : Nat) (hk : k < C) :
    (if c.data_.length ≤ c.tail_ then c.data_ ++ [some v]
      else c.data_.set c.tail_ (some v))[k]? =
      if k = c.tail_ then some (some v) else c.data_[k]? := by
  have htl := hc.tail_lt
  by_cases hL : c.data_.length ≤ c.tail_
  · have hLt : c.data_.length = c.tail_ := hc.length_eq (by omega)
    rw [if_pos hL]
    by_cases hkt : k = c.tail_
    · subst hkt
      rw [if_pos rfl, ← hLt]
      simp
    · rw [if_neg hkt]
      by_cases hkl : k < c.data_.length
      · rw [List.getElem?_append_left hkl]
      · rw [List.getElem?_eq_none (by simp; omega), List.getElem?_eq_none (by omega)]
  · rw [if_neg hL, List.getElem?_set]
    by_cases hkt : k = c.tail_
    · subst hkt
      simp; omega
    · rw [if_neg (Ne.symm hkt), if_neg hkt]

theorem Push_eq {C : Nat} (h1 : 1 ≤ C) (h2 : C ≤ SIZE_MAX) {c : ConcurrentQueueContainer T}
    (hc : c.Inv C) (hs : c.size_ < C) (v : T) :
    c.Push C v = some
      { data_ := if c.data_.length ≤ c.tail_ then c.data_ ++ [some v]
          else c.data_.set c.tail_ (some v)
        head_ := c.head_
        tail_ := (c.tail_ + 1) % C
        size_ := c.size_ + 1 } := by
  rw [Push, if_pos hs, next_eq_mod h1 h2 hc.tail_lt]

theorem Pop_eq {C : Nat} (h1 : 1 ≤ C) (h2 : C ≤ SIZE_MAX) {c : ConcurrentQueueContainer T}
    (hc : c.Inv C) (hs : 0 < c.size_) {v : T} (hv : c.data_[c.head_]? = some (some v)) :
    c.Pop C = some (v,
      { data_ := c.data_.set c.head_ none
        head_ := (c.head_ + 1) % C
        tail_ := c.tail_
        size_ := c.size_ - 1 }) := by
  rw [Pop, if_pos hs, hv, next_eq_mod h1 h2 hc.head_lt]

theorem ring_push_spec {C : Nat} (h1 : 1 ≤ C) (h2 : C ≤ SIZE_MAX) {c : ConcurrentQueueContainer T}
    (hc : c.Inv C) (hs : c.size_ < C) (v : T) :
    ∃ c', c.Push C v = some c' ∧ c'.Inv C ∧ c'.toList C = c.toList C ++ [v] ∧
      c'.size_ = c.size_ + 1 := by
  have hd := push_data_getElem? hc v
  have hidx : ∀ i, i < c.size_ → (c.head_ + i) % C ≠ c.tail_ := by
    intro i hi e
    rw [hc.tail_eq] at e
    have := ring_idx_inj (by omega) hs e
    omega
  refine ⟨_, Push_eq h1 h2 hc hs v, ?_, ?_, rfl⟩
  · refine ⟨hc.head_lt, ?_, hs, ?_, ?_, ?_, ?_, ?_⟩
    · show ((c.tail_ + 1) % C) < C
      exact Nat.mod_lt _ (by omega)
    · show ((c.tail_ + 1) % C) = (c.head_ + (c.size_ + 1)) % C
      rw [hc.tail_eq, Nat.mod_add_mod, Nat.add_assoc]
    · show (if c.data_.length ≤ c.tail_ then c.data_ ++ [some v]
        else c.data_.set c.tail_ (some v)).length ≤ C
      have := hc.tail_lt; have := hc.length_le
      split <;> simp <;> omega
    · show (if c.data_.length ≤ c.tail_ then c.data_ ++ [some v]
        else c.data_.set c.tail_ (some v)).length < C →
        (if c.data_.length ≤ c.tail_ then c.data_ ++ [some v]
        else c.data_.set c.tail_ (some v)).length =
          ((c.tail_ + 1) % C)
      have := hc.tail_lt; have := hc.length_le; have := hc.length_eq
      by_cases hL : c.data_.length ≤ c.tail_
      · rw [if_pos hL]; simp only [List.length_append, List.length_singleton]
        intro hlt
        rw [Nat.mod_eq_of_lt (by omega)]; omega
      · rw [if_neg hL]; simp only [List.length_set]
        intro hlt; omega
    · intro i hi
      show ∃ w, (if c.data_.length ≤ c.tail_ then c.data_ ++ [some v]
        else c.data_.set c.tail_ (some v))[(c.head_ + i) % C]? = some (some w)
      rw [hd _ (Nat.mod_lt _ (by omega))]
      by_cases hi' : i < c.size_
      · rw [if_neg (hidx i hi')]; exact hc.live i hi'
      · have : i = c.size_ := by
          have : i < c.size_ + 1 := hi
          omega
        subst this
        rw [if_pos hc.tail_eq.symm]; exact ⟨v, rfl⟩
    · intro j hj hne
      have hjt : j ≠ c.tail_ := by
        rw [hc.tail_eq]; exact hne c.size_ (Nat.lt_succ_self _)
      have hjL : j < c.data_.length := by
        have hj' : j < (if c.data_.length ≤ c.tail_ then c.data_ ++ [some v]
          else c.data_.set c.tail_ (some v)).length := hj
        have := hc.length_eq; have := hc.tail_lt
        by_cases hL : c.data_.length ≤ c.tail_
        · rw [if_pos hL] at hj'; simp at hj'; omega
        · rw [if_neg hL] at hj'; simpa using hj'
      show (if c.data_.length ≤ c.tail_ then c.data_ ++ [some v]
        else c.data_.set c.tail_ (some v))[j]? = some none
      have := hc.length_le
      rw [hd j (by omega), if_neg hjt]
      exact hc.vacated j hjL (fun i hi => hne i (Nat.lt_succ_of_lt hi))
  · have hslot : ∀ i, slot C ⟨(if c.data_.length ≤ c.tail_ then c.data_ ++ [some v]
        else c.data_.set c.tail_ (some v)), c.head_,
        ((c.tail_ + 1) % C), c.size_ + 1⟩ i =
        if (c.head_ + i) % C = c.tail_ then some v else slot C c i := by
      intro i
      simp only [slot]
      rw [hd _ (Nat.mod_lt _ (by omega))]
      split <;> rfl
    simp only [toList]
    rw [List.range_succ, List.filterMap_append]
    congr 1
    · apply List.filterMap_congr
      intro i hi
      rw [hslot, if_neg (hidx i (List.mem_range.mp hi))]
    · rw [List.filterMap_cons_some (b := v), List.filterMap_nil]
      rw [hslot, if_pos hc.tail_eq.symm]

theorem ring_pop_spec {C : Nat} (h1 : 1 ≤ C) (h2 : C ≤ SIZE_MAX) {c : ConcurrentQueueContainer T}
    (hc : c.Inv C) (hs : 0 < c.size_) :
    ∃ v c', c.Pop C = some (v, c') ∧ c'.Inv C ∧ c.toList C = v :: c'.toList C ∧
      c'.size_ = c.size_ - 1 ∧ c.data_[c.head_]? = some (some v) := by
  obtain ⟨v, hv⟩ := hc.live 0 hs
  rw [Nat.add_zero, Nat.mod_eq_of_lt hc.head_lt] at hv
  have hhL : c.head_ < c.data_.length := by
    by_contra hcon
    rw [List.getElem?_eq_none (by omega)] at hv
    exact absurd hv (by simp)
  have hsz := hc.size_le
  have hidx : ∀ i, i < c.size_ - 1 → (c.head_ + (i + 1)) % C ≠ c.head_ := by
    intro i hi e
    have e' : (c.head_ + (i + 1)) % C = (c.head_ + 0) % C := by
      rw [e, Nat.add_zero, Nat.mod_eq_of_lt hc.head_lt]
    have := ring_idx_inj (by omega) (by omega) e'
    omega
  have hmod : ∀ i, ((c.head_ + 1) % C + i) % C = (c.head_ + (i + 1)) % C := by
    intro i
    rw [Nat.mod_add_mod, Nat.add_assoc, Nat.add_comm 1 i]
  refine ⟨v, _, Pop_eq h1 h2 hc hs hv, ?_, ?_, rfl, hv⟩
  · refine ⟨?_, hc.tail_lt, ?_, ?_, ?_, ?_, ?_, ?_⟩
    · show ((c.head_ + 1) % C) < C
      exact Nat.mod_lt _ (by omega)
    · show c.size_ - 1 ≤ C
      omega
    · show c.tail_ = (((c.head_ + 1) % C) + (c.size_ - 1)) % C
      rw [hmod, hc.tail_eq]
      congr 2; omega
    · show (c.data_.set c.head_ none).length ≤ C
      simpa using hc.length_le
    · show (c.data_.set c.head_ none).length < C → (c.data_.set c.head_ none).length = c.tail_
      simpa using hc.length_eq
    · intro i hi
      show ∃ w, (c.data_.set c.head_ none)[(((c.head_ + 1) % C) + i) % C]?
        = some (some w)
      have hi' : i < c.size_ - 1 := hi
      rw [hmod, List.getElem?_set, if_neg (Ne.symm (hidx i hi'))]
      exact hc.live (i + 1) (by omega)
    · intro j hj hne
      have hjL : j < c.data_.length := by simpa using hj
      show (c.data_.set c.head_ none)[j]? = some none
      rw [List.getElem?_set]
      by_cases hjh : c.head_ = j
      · rw [if_pos hjh, if_pos hhL]
      · rw [if_neg hjh]
        apply hc.vacated j hjL
        intro i hi
        cases i with
        | zero => rw [Nat.add_zero, Nat.mod_eq_of_lt hc.head_lt]; exact Ne.symm hjh
        | succ i =>
          have := hne i (show i < c.size_ - 1 by omega)
          rw [show (((c.head_ + 1) % C) + i) % C =
            (c.head_ + (i + 1)) % C from hmod i] at this
          exact this
  · simp only [toList]
    obtain ⟨n, hn⟩ : ∃ n, c.size_ = n + 1 := ⟨c.size_ - 1, by omega⟩
    rw [hn, List.range_succ_eq_map, List.filterMap_cons_some (b := v), List.filterMap_map]
    · congr 1
      simp only [Nat.add_sub_cancel]
      apply List.filterMap_congr
      intro i hi
      have hi' : i < c.size_ - 1 := by
        have := List.mem_range.mp hi
        omega
      simp only [slot, Function.comp]
      rw [hmod, List.getElem?_set, if_neg (Ne.symm (hidx i hi'))]
    · simp [slot, Nat.mod_eq_of_lt hc.head_lt, hv]

end internal.ConcurrentQueueContainer

/-! ## The storage classes refine a list; the calls refine the list-level steps -/

theorem storage_refines (T : Type) {MaxSize : Nat} (h2 : MaxSize ≤ SIZE_MAX) :
    (Storage.ops T MaxSize).Refines (Storage.Inv MaxSize) (Storage.toList MaxSize) where
  ctor_inv := by
    by_cases h : MaxSize = ConcurrentQueueUnlimitedSize
    · simp [Storage.ops, h, Storage.Inv]
    · simp only [Storage.ops, if_neg h, Storage.Inv]
      refine ⟨h, ?_⟩
      split
      · trivial
      · exact ConcurrentQueueContainer.ring_ctor_inv (by omega)
  ctor_abs := by
    by_cases h : MaxSize = ConcurrentQueueUnlimitedSize
    · simp [Storage.ops, h, Storage.toList, ConcurrentQueueContainerUnlimited.ctor]
    · simp [Storage.ops, h, Storage.toList, ConcurrentQueueContainer.ctor,
        ConcurrentQueueContainer.toList]
  size_eq := by
    intro s hs
    cases s with
    | limited c =>
      obtain ⟨_, hc⟩ := hs
      split at hc
      · subst hc; simp [Storage.ops, Storage.toList, ConcurrentQueueContainer.ctor,
          ConcurrentQueueContainer.toList, ConcurrentQueueContainer.Size]
      · simp [Storage.ops, Storage.toList, ConcurrentQueueContainer.Size,
          ConcurrentQueueContainer.ring_toList_length hc]
    | unlimited c => rfl
  empty_eq := by
    intro s hs
    cases s with
    | limited c =>
      obtain ⟨_, hc⟩ := hs
      split at hc
      · subst hc; simp [Storage.ops, Storage.toList, ConcurrentQueueContainer.ctor,
          ConcurrentQueueContainer.toList, ConcurrentQueueContainer.Empty]
      · have hl := ConcurrentQueueContainer.ring_toList_length hc
        simp only [Storage.ops, Storage.toList, ConcurrentQueueContainer.Empty]
        rw [Bool.eq_iff_iff]
        simp [← List.length_eq_zero, hl]
    | unlimited c => rfl
  full_eq := by
    intro s hs hlim
    cases s with
    | limited c =>
      obtain ⟨_, hc⟩ := hs
      split at hc
      · subst hc; rename_i h0; subst h0
        simp [Storage.ops, Storage.toList, ConcurrentQueueContainer.ctor,
          ConcurrentQueueContainer.toList, ConcurrentQueueContainer.Full]
      · have hl := ConcurrentQueueContainer.ring_toList_length hc
        simp only [Storage.ops, Storage.toList, ConcurrentQueueContainer.Full]
        rw [Bool.eq_iff_iff]
        simp [hl]
    | unlimited c => exact absurd hs hlim
  size_le := by
    intro s hs hlim
    cases s with
    | limited c =>
      obtain ⟨_, hc⟩ := hs
      split at hc
      · subst hc; simp [Storage.ops, Storage.toList, ConcurrentQueueContainer.ctor,
          ConcurrentQueueContainer.toList]
      · have hl := ConcurrentQueueContainer.ring_toList_length hc
        simp only [Storage.ops, Storage.toList]
        rw [hl]; exact hc.size_le
    | unlimited c => exact absurd hs hlim
  push := by
    intro s v hs hlt
    cases s with
    | limited c =>
      obtain ⟨hne, hc⟩ := hs
      have hlt' := hlt hne
      simp only [Storage.ops, Storage.toList] at hlt'
      have h0 : MaxSize ≠ 0 := by omega
      rw [if_neg h0] at hc
      rw [ConcurrentQueueContainer.ring_toList_length hc] at hlt'
      obtain ⟨c', e, hc', hl, _⟩ :=
        ConcurrentQueueContainer.ring_push_spec (by omega) h2 hc hlt' v
      refine ⟨.limited c', ?_, ?_, ?_⟩
      · simp [Storage.ops, e]
      · exact ⟨hne, by rw [if_neg h0]; exact hc'⟩
      · simpa [Storage.toList] using hl
    | unlimited c =>
      refine ⟨.unlimited ⟨c.data_ ++ [v]⟩, ?_, hs, rfl⟩
      simp [Storage.ops, ConcurrentQueueContainerUnlimited.Push]
  pop := by
    intro s x xs hs hx
    cases s with
    | limited c =>
      obtain ⟨hne, hc⟩ := hs
      simp only [Storage.toList] at hx
      split at hc
      · subst hc
        simp [ConcurrentQueueContainer.ctor, ConcurrentQueueContainer.toList] at hx
      · rename_i h0
        have hsz : 0 < c.size_ := by
          have := ConcurrentQueueContainer.ring_toList_length hc
          rw [hx] at this
          simp at this; omega
        obtain ⟨v, c', e, hc', hl, _⟩ :=
          ConcurrentQueueContainer.ring_pop_spec (by omega) h2 hc hsz
        rw [hx] at hl
        obtain ⟨rfl, rfl⟩ := List.cons.inj hl
        refine ⟨.limited c', ?_, ⟨hne, by rw [if_neg h0]; exact hc'⟩, rfl⟩
        simp [Storage.ops, e]
    | unlimited c =>
      simp only [Storage.toList] at hx
      refine ⟨.unlimited ⟨xs⟩, ?_, hs, rfl⟩
      simp [Storage.ops, ConcurrentQueueContainerUnlimited.Pop, hx]

namespace ConcurrentQueue
variable {S V : Type}

theorem PushImpl_refines {ops : ContainerOps S V} {I : S → Prop} {abs : S → List V}
    (R : ops.Refines I abs) (q : ConcurrentQueue S) (hI : I q.data_) (item : V) :
    (LimitedSize ops = true ∧ (abs q.data_).length = ops.MaxSize ∧ q.finished_ = false ∧
        PushImpl ops q item = .wait) ∨
    (q.finished_ = true ∧ PushImpl ops q item = .ret q) ∨
    (q.finished_ = false ∧ (LimitedSize ops = true → (abs q.data_).length < ops.MaxSize) ∧
      ∃ d, PushImpl ops q item = .ret { q with data_ := d } ∧ I d ∧
        abs d = abs q.data_ ++ [item]) := by
  cases hf : q.finished_
  · by_cases hl : LimitedSize ops = true
    · have hne : ops.MaxSize ≠ ConcurrentQueueUnlimitedSize := by
        simpa [LimitedSize] using hl
      have hfull := R.full_eq _ hI hne
      have hle := R.size_le _ hI hne
      by_cases hlen : (abs q.data_).length = ops.MaxSize
      · left
        refine ⟨hl, hlen, rfl, ?_⟩
        simp [PushImpl, hl, hfull, hlen, hf]
      · right; right
        have hlt : (abs q.data_).length < ops.MaxSize := by omega
        obtain ⟨d, e, hd, ha⟩ := R.push _ item hI (fun _ => hlt)
        refine ⟨rfl, fun _ => hlt, d, ?_, hd, ha⟩
        simp [PushImpl, hl, hfull, hlen, hf, e]
    · right; right
      have heq : ops.MaxSize = ConcurrentQueueUnlimitedSize := by
        simpa [LimitedSize] using hl
      obtain ⟨d, e, hd, ha⟩ := R.push _ item hI (fun h => absurd heq h)
      refine ⟨rfl, fun h => absurd h hl, d, ?_, hd, ha⟩
      simp [PushImpl, hl, hf, e]
  · right; left
    exact ⟨rfl, by simp [PushImpl, hf]⟩

theorem PopImpl_refines {ops : ContainerOps S V} {I : S → Prop} {abs : S → List V}
    (R : ops.Refines I abs) (q : ConcurrentQueue S) (hI : I q.data_) (result : V) :
    (abs q.data_ = [] ∧ q.finished_ = false ∧ PopImpl ops q result = .wait) ∨
    (abs q.data_ = [] ∧ q.finished_ = true ∧ PopImpl ops q result = .ret (false, result, q)) ∨
    (∃ x xs d, abs q.data_ = x :: xs ∧
      PopImpl ops q result = .ret (true, x, { q with data_ := d }) ∧ I d ∧ abs d = xs) := by
  have hemp := R.empty_eq _ hI
  cases ha : abs q.data_ with
  | nil =>
    rw [ha] at hemp
    cases hf : q.finished_
    · left; exact ⟨rfl, rfl, by simp [PopImpl, hemp, hf]⟩
    · right; left; exact ⟨rfl, rfl, by simp [PopImpl, hemp, hf]⟩
  | cons x xs =>
    rw [ha] at hemp
    obtain ⟨d, e, hd, hx⟩ := R.pop _ x xs hI ha
    right; right
    exact ⟨x, xs, d, rfl, by simp [PopImpl, hemp, e], hd, hx⟩

theorem TryPopImpl_refines {ops : ContainerOps S V} {I : S → Prop} {abs : S → List V}
    (R : ops.Refines I abs) (q : ConcurrentQueue S) (hI : I q.data_) (result : V) :
    (abs q.data_ = [] ∧ TryPopImpl ops q result = .ret (false, result, q)) ∨
    (∃ x xs d, abs q.data_ = x :: xs ∧
      TryPopImpl ops q result = .ret (true, x, { q with data_ := d }) ∧ I d ∧ abs d = xs) := by
  have hemp := R.empty_eq _ hI
  cases ha : abs q.data_ with
  | nil =>
    rw [ha] at hemp
    left; exact ⟨rfl, by simp [TryPopImpl, hemp]⟩
  | cons x xs =>
    rw [ha] at hemp
    obtain ⟨d, e, hd, hx⟩ := R.pop _ x xs hI ha
    right
    exact ⟨x, xs, d, rfl, by simp [TryPopImpl, hemp, e], hd, hx⟩

/-- The code of one call agrees with its list-level description and keeps
the storage invariant. -/
theorem call_refines {ops : ContainerOps S V} {I : S → Prop} {abs : S → List V}
    (R : ops.Refines I abs) (q : ConcurrentQueue S) (hI : I q.data_) (c : Call V) :
    (call ops q c).map (fun p => (p.1, p.2.model abs)) =
        Model.call ops.MaxSize (q.model abs) c ∧
      ∀ r q', call ops q c = .ret (r, q') → I q'.data_ := by
  cases c with
  | Push item =>
    rcases PushImpl_refines R q hI item with ⟨hl, hlen, hf, e⟩ | ⟨hf, e⟩ | ⟨hf, hlt, d, e, hd, ha⟩
    · have hne : ops.MaxSize ≠ ConcurrentQueueUnlimitedSize := by
        simpa [LimitedSize] using hl
      simp [call, e, Outcome.map, Model.call, model, hne, hlen, hf]
    · refine ⟨?_, ?_⟩
      · simp [call, e, Outcome.map, Model.call, model, hf]
      · intro r q' h
        simp only [call, e, Outcome.ret.injEq, Prod.mk.injEq] at h
        rw [← h.2]; exact hI
    · refine ⟨?_, ?_⟩
      · have : ¬ (ops.MaxSize ≠ ConcurrentQueueUnlimitedSize ∧
            (abs q.data_).length = ops.MaxSize ∧ q.finished_ = false) := by
          rintro ⟨h1, h2, _⟩
          have := hlt (by simpa [LimitedSize] using h1)
          omega
        have this' : ¬ (¬ ops.MaxSize = ConcurrentQueueUnlimitedSize ∧
            (abs q.data_).length = ops.MaxSize) := fun h => this ⟨h.1, h.2, hf⟩
        simp [call, e, Outcome.map, Model.call, model, hf, ha, if_neg this']
      · intro r q' h
        simp only [call, e, Outcome.ret.injEq, Prod.mk.injEq] at h
        rw [← h.2]; exact hd
  | Pop result =>
    rcases PopImpl_refines R q hI result with ⟨ha, hf, e⟩ | ⟨ha, hf, e⟩ | ⟨x, xs, d, ha, e, hd, hx⟩
    · simp [call, e, Outcome.map, Model.call, model, ha, hf]
    · refine ⟨?_, ?_⟩
      · simp [call, e, Outcome.map, Model.call, model, ha, hf]
      · intro r q' h
        simp only [call, e, Outcome.ret.injEq, Prod.mk.injEq] at h
        rw [← h.2]; exact hI
    · refine ⟨?_, ?_⟩
      · simp [call, e, Outcome.map, Model.call, model, ha, hx]
      · intro r q' h
        simp only [call, e, Outcome.ret.injEq, Prod.mk.injEq] at h
        rw [← h.2]; exact hd
  | TryPop result =>
    rcases TryPopImpl_refines R q hI result with ⟨ha, e⟩ | ⟨x, xs, d, ha, e, hd, hx⟩
    · refine ⟨?_, ?_⟩
      · simp [call, e, Outcome.map, Model.call, model, ha]
      · intro r q' h
        simp only [call, e, Outcome.ret.injEq, Prod.mk.injEq] at h
        rw [← h.2]; exact hI
    · refine ⟨?_, ?_⟩
      · simp [call, e, Outcome.map, Model.call, model, ha, hx]
      · intro r q' h
        simp only [call, e, Outcome.ret.injEq, Prod.mk.injEq] at h
        rw [← h.2]; exact hd
  | SetFinish =>
    refine ⟨by simp [call, Outcome.map, Model.call, model, SetFinish], ?_⟩
    intro r q' h
    simp only [call, Outcome.ret.injEq, Prod.mk.injEq] at h
    rw [← h.2]; exact hI
  | Size =>
    refine ⟨by simp [call, Outcome.map, Model.call, model, Size, R.size_eq _ hI], ?_⟩
    intro r q' h
    simp only [call, Outcome.ret.injEq, Prod.mk.injEq] at h
    rw [← h.2]; exact hI

end ConcurrentQueue

/-! ## Sequences of calls -/

namespace ConcurrentQueue
variable {S V : Type}

/-- A returning call, seen on the list of elements. -/
theorem call_ret_model {ops : ContainerOps S V} {I : S → Prop} {abs : S → List V}
    (R : ops.Refines I abs) {q : ConcurrentQueue S} (hI : I q.data_) {c : Call V}
    {r : Ret V} {q' : ConcurrentQueue S} (h : call ops q c = .ret (r, q')) :
    Model.call ops.MaxSize (q.model abs) c = .ret (r, q'.model abs) ∧ I q'.data_ := by
  obtain ⟨h1, h2⟩ := call_refines R q hI c
  rw [h] at h1
  exact ⟨h1.symm, h2 r q' h⟩

theorem fifo_refines {ops : ContainerOps S V} {I : S → Prop} {abs : S → List V}
    (R : ops.Refines I abs) (calls : List (Call V)) :
    ∀ q : ConcurrentQueue S, I q.data_ →
      popped ops q calls ++ abs (final ops q calls).data_ = abs q.data_ ++ pushed ops q calls := by
  induction calls with
  | nil => intro q _; simp [popped, final, pushed]
  | cons c cs ih =>
    intro q hI
    cases h : call ops q c with
    | wait => simp [popped, final, pushed, h]
    | fault => simp [popped, final, pushed, h]
    | ret p =>
      obtain ⟨r, q'⟩ := p
      obtain ⟨hm, hI'⟩ := call_ret_model R hI h
      have ih' := ih q' hI'
      cases c with
      | Push item =>
        simp only [Model.call, model] at hm
        split at hm
        · cases hm
        · split at hm
          · rename_i hf
            simp only [Outcome.ret.injEq, Prod.mk.injEq, Model.mk.injEq] at hm
            obtain ⟨rfl, ha, _⟩ := hm
            simp only [popped, final, pushed, h, hf, if_true]
            rw [ih', ha]
          · rename_i hf
            simp only [Outcome.ret.injEq, Prod.mk.injEq, Model.mk.injEq] at hm
            obtain ⟨rfl, ha, _⟩ := hm
            simp only [popped, final, pushed, h, hf]
            rw [ih', ← ha]; simp
      | Pop result =>
        simp only [Model.call, model] at hm
        split at hm
        · rename_i x xs hx
          simp only [Outcome.ret.injEq, Prod.mk.injEq, Model.mk.injEq] at hm
          obtain ⟨rfl, ha, _⟩ := hm
          simp only [popped, final, pushed, h]
          rw [List.cons_append, ih', hx, ← ha]; simp
        · rename_i hx
          split at hm
          · simp only [Outcome.ret.injEq, Prod.mk.injEq, Model.mk.injEq] at hm
            obtain ⟨rfl, ha, _⟩ := hm
            simp only [popped, final, pushed, h]
            rw [ih', ← ha]
          · cases hm
      | TryPop result =>
        simp only [Model.call, model] at hm
        split at hm
        · rename_i x xs hx
          simp only [Outcome.ret.injEq, Prod.mk.injEq, Model.mk.injEq] at hm
          obtain ⟨rfl, ha, _⟩ := hm
          simp only [popped, final, pushed, h]
          rw [List.cons_append, ih', hx, ← ha]; simp
        · rename_i hx
          simp only [Outcome.ret.injEq, Prod.mk.injEq, Model.mk.injEq] at hm
          obtain ⟨rfl, ha, _⟩ := hm
          simp only [popped, final, pushed, h]
          rw [ih', ← ha]
      | SetFinish =>
        simp only [Model.call, model, Outcome.ret.injEq, Prod.mk.injEq, Model.mk.injEq] at hm
        obtain ⟨rfl, ha, _⟩ := hm
        simp only [popped, final, pushed, h]
        rw [ih', ← ha]
      | Size =>
        simp only [Model.call, model, Outcome.ret.injEq, Prod.mk.injEq, Model.mk.injEq] at hm
        obtain ⟨rfl, ha, _⟩ := hm
        simp only [popped, final, pushed, h]
        rw [ih', ← ha]

theorem final_inv {ops : ContainerOps S V} {I : S → Prop} {abs : S → List V}
    (R : ops.Refines I abs) (calls : List (Call V)) :
    ∀ q : ConcurrentQueue S, I q.data_ → I (final ops q calls).data_ := by
  induction calls with
  | nil => intro q hI; exact hI
  | cons c cs ih =>
    intro q hI
    cases h : call ops q c with
    | wait => simpa [final, h] using hI
    | fault => simpa [final, h] using hI
    | ret p =>
      obtain ⟨r, q'⟩ := p
      simp only [final, h]
      exact ih q' (call_ret_model R hI h).2

theorem drain_refines {ops : ContainerOps S V} {I : S → Prop} {abs : S → List V}
    (R : ops.Refines I abs) (rs : List V) :
    ∀ q : ConcurrentQueue S, I q.data_ → q.finished_ = true →
      trace ops q (rs.map .Pop) =
          ((abs q.data_).take rs.length).map (fun e => .ret (.pop true e)) ++
            (rs.drop (abs q.data_).length).map (fun r => .ret (.pop false r)) ∧
        abs (final ops q (rs.map .Pop)).data_ = (abs q.data_).drop rs.length := by
  induction rs with
  | nil => intro q _ _; simp [trace, final]
  | cons r rs ih =>
    intro q hI hf
    rcases PopImpl_refines R q hI r with ⟨_, hf', _⟩ | ⟨ha, _, e⟩ | ⟨x, xs, d, ha, e, hd, hx⟩
    · rw [hf] at hf'; cases hf'
    · obtain ⟨ih1, ih2⟩ := ih q hI hf
      simp only [List.map_cons, trace, final, call, e, ih1, ih2]
      simp [ha]
    · obtain ⟨ih1, ih2⟩ := ih { q with data_ := d } hd hf
      simp only [List.map_cons, trace, final, call, e, ih1, ih2]
      simp [ha, hx]

end ConcurrentQueue

open ConcurrentQueue

/-- C1: on a queue constructed empty (any `MaxSize`, bounded or unbounded),
for every sequence of calls applied one at a time, the values handed out by
the successful `Pop`/`TryPop` calls, in call order, followed by the elements
still stored, front first, are exactly the values of the `Push` calls made
while the queue was not finished, in call order (all three taken over the
calls that returned, which is the whole sequence when every call completes). -/
theorem C1_fifo_order (T : Type) (MaxSize : Nat) (h : MaxSize ≤ SIZE_MAX)
    (calls : List (Call T)) :
    popped (Storage.ops T MaxSize) (ctor (Storage.ops T MaxSize)) calls ++
        (final (Storage.ops T MaxSize) (ctor (Storage.ops T MaxSize)) calls).data_.toList MaxSize =
      pushed (Storage.ops T MaxSize) (ctor (Storage.ops T MaxSize)) calls := by
  have R := storage_refines T h
  have := fifo_refines R calls (ctor (Storage.ops T MaxSize)) R.ctor_inv
  rw [this]
  show Storage.toList MaxSize (Storage.ops T MaxSize).ctor ++ _ = _
  rw [R.ctor_abs, List.nil_append]

theorem C1_fifo_order_witness :
    2 ≤ SIZE_MAX ∧
    completes (Storage.ops Nat 2) (ctor (Storage.ops Nat 2))
      [.Push 7, .Push 8, .Pop 0, .Push 9, .TryPop 0, .SetFinish, .Push 5, .Pop 0, .Pop 0] = true ∧
    popped (Storage.ops Nat 2) (ctor (Storage.ops Nat 2))
      [.Push 7, .Push 8, .Pop 0, .Push 9, .TryPop 0, .SetFinish, .Push 5, .Pop 0, .Pop 0] ++
        (final (Storage.ops Nat 2) (ctor (Storage.ops Nat 2))
          [.Push 7, .Push 8, .Pop 0, .Push 9, .TryPop 0, .SetFinish, .Push 5, .Pop 0,
            .Pop 0]).data_.toList 2 =
      pushed (Storage.ops Nat 2) (ctor (Storage.ops Nat 2))
        [.Push 7, .Push 8, .Pop 0, .Push 9, .TryPop 0, .SetFinish, .Push 5, .Pop 0, .Pop 0] :=
  ⟨by decide, by decide, C1_fifo_order Nat 2 (by decide) _⟩

/-- C2: a queue (bounded or unbounded) that holds the elements `e1 .. en`,
front first, and is finished answers any run of `Pop` calls as follows: the
first `n` return `true` with `e1, .., en` in that order, every later one
returns `false` and leaves the caller's variable as it was; `Size()` is `n`
before the run and `n - k` after `k` calls, so it drops by exactly one with
each successful `Pop`. -/
theorem C2_drain_then_stop (T : Type) (MaxSize : Nat) (h : MaxSize ≤ SIZE_MAX)
    (q : ConcurrentQueue (Storage T)) (hI : Storage.Inv MaxSize q.data_)
    (hf : q.finished_ = true) (rs : List T) :
    trace (Storage.ops T MaxSize) q (rs.map .Pop) =
        ((q.data_.toList MaxSize).take rs.length).map (fun e => .ret (.pop true e)) ++
          (rs.drop (q.data_.toList MaxSize).length).map (fun r => .ret (.pop false r)) ∧
      Size (Storage.ops T MaxSize) q = (q.data_.toList MaxSize).length ∧
      Size (Storage.ops T MaxSize) (final (Storage.ops T MaxSize) q (rs.map .Pop)) =
        (q.data_.toList MaxSize).length - rs.length ∧
      (final (Storage.ops T MaxSize) q (rs.map .Pop)).data_.toList MaxSize =
        (q.data_.toList MaxSize).drop rs.length := by
  have R := storage_refines T h
  obtain ⟨h1, h2⟩ := drain_refines R rs q hI hf
  refine ⟨h1, R.size_eq _ hI, ?_, h2⟩
  show (Storage.ops T MaxSize).Size _ = _
  rw [R.size_eq _ (final_inv R _ q hI), h2, List.length_drop]

/-- Every state reached from the constructed queue is well formed. -/
theorem reachable_inv (T : Type) {MaxSize : Nat} (h : MaxSize ≤ SIZE_MAX)
    (calls : List (Call T)) :
    Storage.Inv MaxSize
      (final (Storage.ops T MaxSize) (ctor (Storage.ops T MaxSize)) calls).data_ :=
  final_inv (storage_refines T h) calls _ (storage_refines T h).ctor_inv

theorem C2_drain_then_stop_witness :
    3 ≤ SIZE_MAX ∧
    Storage.Inv 3 (final (Storage.ops Nat 3) (ctor (Storage.ops Nat 3))
      [.Push 1, .Push 2, .Pop 0, .Pop 0, .Push 3, .Push 4, .Push 5, .SetFinish]).data_ ∧
    (final (Storage.ops Nat 3) (ctor (Storage.ops Nat 3))
      [.Push 1, .Push 2, .Pop 0, .Pop 0, .Push 3, .Push 4, .Push 5, .SetFinish]).finished_ = true ∧
    trace (Storage.ops Nat 3)
        (final (Storage.ops Nat 3) (ctor (Storage.ops Nat 3))
          [.Push 1, .Push 2, .Pop 0, .Pop 0, .Push 3, .Push 4, .Push 5, .SetFinish])
        [.Pop 0, .Pop 0, .Pop 0, .Pop 9, .Pop 9] =
      [.ret (.pop true 3), .ret (.pop true 4), .ret (.pop true 5), .ret (.pop false 9),
        .ret (.pop false 9)] :=
  ⟨by decide, reachable_inv Nat (by decide) _, by decide,
    (C2_drain_then_stop Nat 3 (by decide) _ (reachable_inv Nat (by decide) _) (by decide)
      [0, 0, 0, 9, 9]).1.trans (by decide)⟩

/-- C3: on a finished queue (any `MaxSize`, any storage state, a full ring
buffer included) `Push(v)` returns, it does not wait, and it hands back the
very state it found: stored elements, their order, `Size()` and the
finished flag are unchanged. -/
theorem C3_push_after_finish (T : Type) (MaxSize : Nat) (q : ConcurrentQueue (Storage T))
    (hf : q.finished_ = true) (v : T) :
    PushImpl (Storage.ops T MaxSize) q v = .ret q := by
  simp [PushImpl, hf]

theorem C3_push_after_finish_witness :
    (final (Storage.ops Nat 2) (ctor (Storage.ops Nat 2))
        [.Push 1, .Push 2, .SetFinish]).finished_ = true ∧
    (Storage.ops Nat 2).Full (final (Storage.ops Nat 2) (ctor (Storage.ops Nat 2))
        [.Push 1, .Push 2, .SetFinish]).data_ = true ∧
    PushImpl (Storage.ops Nat 2)
        (final (Storage.ops Nat 2) (ctor (Storage.ops Nat 2)) [.Push 1, .Push 2, .SetFinish]) 3 =
      .ret (final (Storage.ops Nat 2) (ctor (Storage.ops Nat 2)) [.Push 1, .Push 2, .SetFinish]) :=
  ⟨by decide, by decide, C3_push_after_finish Nat 2 _ (by decide) 3⟩

/-- C4: for a bounded queue of capacity `C` (any `C` other than the
unlimited-size value), in every state reached from the constructed queue by
a sequence of calls `Size()` is at most `C`, and a `Push` that returns with
a changed state started from `Size() < C` and added exactly one element. -/
theorem C4_capacity_invariant (T : Type) (C : Nat) (hC : C < ConcurrentQueueUnlimitedSize)
    (calls : List (Call T)) :
    Size (Storage.ops T C) (final (Storage.ops T C) (ctor (Storage.ops T C)) calls) ≤ C ∧
    ∀ (v : T) (q' : ConcurrentQueue (Storage T)),
      PushImpl (Storage.ops T C) (final (Storage.ops T C) (ctor (Storage.ops T C)) calls) v =
          .ret q' →
        q' ≠ final (Storage.ops T C) (ctor (Storage.ops T C)) calls →
        Size (Storage.ops T C) (final (Storage.ops T C) (ctor (Storage.ops T C)) calls) < C ∧
          Size (Storage.ops T C) q' =
            Size (Storage.ops T C) (final (Storage.ops T C) (ctor (Storage.ops T C)) calls) + 1 ∧
          Size (Storage.ops T C) q' ≤ C := by
  have h2 : C ≤ SIZE_MAX := Nat.le_of_lt hC
  have hne : (Storage.ops T C).MaxSize ≠ ConcurrentQueueUnlimitedSize := Nat.ne_of_lt hC
  have hlim : LimitedSize (Storage.ops T C) = true := by simpa [LimitedSize] using hne
  have R := storage_refines T h2
  have hI := reachable_inv T h2 calls
  generalize final (Storage.ops T C) (ctor (Storage.ops T C)) calls = q at hI ⊢
  refine ⟨?_, ?_⟩
  · show (Storage.ops T C).Size _ ≤ C
    rw [R.size_eq _ hI]; exact R.size_le _ hI hne
  · intro v q' hp hq
    rcases PushImpl_refines R q hI v with ⟨_, _, _, e⟩ | ⟨_, e⟩ | ⟨_, hlt, d, e, hd, ha⟩
    · rw [e] at hp; cases hp
    · rw [e] at hp; cases hp; exact absurd rfl hq
    · rw [e] at hp
      cases hp
      have hlt' := hlt hlim
      have hs : Size (Storage.ops T C) q = (Storage.toList C q.data_).length := R.size_eq _ hI
      have hs' : Size (Storage.ops T C) { q with data_ := d } =
          (Storage.toList C q.data_).length + 1 := by
        show (Storage.ops T C).Size d = _
        rw [R.size_eq _ hd, ha]; simp
      rw [hs, hs']
      exact ⟨hlt', rfl, hlt'⟩

theorem C4_capacity_invariant_witness :
    2 < ConcurrentQueueUnlimitedSize ∧
    Size (Storage.ops Nat 2)
      (final (Storage.ops Nat 2) (ctor (Storage.ops Nat 2))
        [.Push 1, .Push 2, .Pop 0, .Push 3]) ≤ 2 :=
  ⟨by decide, (C4_capacity_invariant Nat 2 (by decide) [.Push 1, .Push 2, .Pop 0, .Push 3]).1⟩

/-- C5: in every well-formed queue state `TryPop(r)` returns at once; it
returns `false` exactly when the queue holds no element (`Size()` is 0),
whatever the finished flag; when it returns `true`, `r` is the former front
element, the elements behind it are what remains, in the same order, and
`Size()` is one less. The finished flag is untouched. -/
theorem C5_trypop (T : Type) (MaxSize : Nat) (h : MaxSize ≤ SIZE_MAX)
    (q : ConcurrentQueue (Storage T)) (hI : Storage.Inv MaxSize q.data_) (r : T) :
    ∃ ok r' q', TryPopImpl (Storage.ops T MaxSize) q r = .ret (ok, r', q') ∧
      (ok = false ↔ q.data_.toList MaxSize = []) ∧
      (ok = false ↔ Size (Storage.ops T MaxSize) q = 0) ∧
      q'.finished_ = q.finished_ ∧
      (ok = true →
        q.data_.toList MaxSize = r' :: q'.data_.toList MaxSize ∧
          Size (Storage.ops T MaxSize) q' + 1 = Size (Storage.ops T MaxSize) q) := by
  have R := storage_refines T h
  have hs : Size (Storage.ops T MaxSize) q = (Storage.toList MaxSize q.data_).length :=
    R.size_eq _ hI
  rcases TryPopImpl_refines R q hI r with ⟨ha, e⟩ | ⟨x, xs, d, ha, e, hd, hx⟩
  · refine ⟨false, r, q, e, ?_, ?_, rfl, ?_⟩
    · simp [ha]
    · simp [hs, ha]
    · intro hc; cases hc
  · refine ⟨true, x, { q with data_ := d }, e, ?_, ?_, rfl, ?_⟩
    · simp [ha]
    · simp [hs, ha]
    · intro _
      have hs' : Size (Storage.ops T MaxSize) { q with data_ := d } =
          (Storage.toList MaxSize d).length := R.size_eq _ hd
      rw [hs, hs', ha, hx]
      exact ⟨rfl, rfl⟩

theorem C5_trypop_witness :
    2 ≤ SIZE_MAX ∧
    Storage.Inv 2 (final (Storage.ops Nat 2) (ctor (Storage.ops Nat 2))
      [.Push 1, .Pop 0, .Push 2, .Push 3, .SetFinish]).data_ ∧
    ∃ ok r' q', TryPopImpl (Storage.ops Nat 2)
        (final (Storage.ops Nat 2) (ctor (Storage.ops Nat 2))
          [.Push 1, .Pop 0, .Push 2, .Push 3, .SetFinish]) 0 = .ret (ok, r', q') ∧
      (ok = false ↔ (final (Storage.ops Nat 2) (ctor (Storage.ops Nat 2))
          [.Push 1, .Pop 0, .Push 2, .Push 3, .SetFinish]).data_.toList 2 = []) :=
  ⟨by decide, reachable_inv Nat (by decide) _,
    let ⟨ok, r', q', h1, h2, _⟩ :=
      C5_trypop Nat 2 (by decide) _ (reachable_inv Nat (by decide)
        [.Push 1, .Pop 0, .Push 2, .Push 3, .SetFinish]) 0
    ⟨ok, r', q', h1, h2⟩⟩

namespace ConcurrentQueue
variable {S V : Type}

theorem model_call_unlimited {MaxSize C : Nat} (m : Model V) (c : Call V)
    (hu : MaxSize = ConcurrentQueueUnlimitedSize)
    (hb : ∀ item, c = .Push item → m.elems.length < C) :
    Model.call C m c = Model.call MaxSize m c := by
  cases c with
  | Push item =>
    have := hb item rfl
    have h1 : ¬ (C ≠ ConcurrentQueueUnlimitedSize ∧ m.elems.length = C ∧ m.finished = false) := by
      rintro ⟨_, h, _⟩; omega
    have h2 : ¬ (MaxSize ≠ ConcurrentQueueUnlimitedSize ∧ m.elems.length = MaxSize ∧
        m.finished = false) := by
      rintro ⟨h, _, _⟩; exact h hu
    simp only [Model.call, if_neg h1, if_neg h2]
  | Pop result => rfl
  | TryPop result => rfl
  | SetFinish => rfl
  | Size => rfl

theorem trace_eq_unlimited {S₁ S₂ : Type} {ops₁ : ContainerOps S₁ V} {ops₂ : ContainerOps S₂ V}
    {I₁ : S₁ → Prop} {abs₁ : S₁ → List V} {I₂ : S₂ → Prop} {abs₂ : S₂ → List V}
    (R₁ : ops₁.Refines I₁ abs₁) (R₂ : ops₂.Refines I₂ abs₂)
    (hu : ops₂.MaxSize = ConcurrentQueueUnlimitedSize) (calls : List (Call V)) :
    ∀ (q₁ : ConcurrentQueue S₁) (q₂ : ConcurrentQueue S₂), I₁ q₁.data_ → I₂ q₂.data_ →
      q₁.model abs₁ = q₂.model abs₂ →
      pushesBelow ops₂ ops₁.MaxSize q₂ calls = true →
      trace ops₁ q₁ calls = trace ops₂ q₂ calls := by
  induction calls with
  | nil => intro _ _ _ _ _ _; rfl
  | cons c cs ih =>
    intro q₁ q₂ hI₁ hI₂ hm hb
    obtain ⟨hc₁, hk₁⟩ := call_refines R₁ q₁ hI₁ c
    obtain ⟨hc₂, hk₂⟩ := call_refines R₂ q₂ hI₂ c
    simp only [pushesBelow, Bool.and_eq_true] at hb
    obtain ⟨hb0, hb1⟩ := hb
    have hlen : ∀ item, c = .Push item → (q₂.model abs₂).elems.length < ops₁.MaxSize := by
      intro item hc
      subst hc
      have : Size ops₂ q₂ < ops₁.MaxSize := by simpa using hb0
      have hs : Size ops₂ q₂ = (abs₂ q₂.data_).length := R₂.size_eq _ hI₂
      rw [hs] at this
      exact this
    have key := model_call_unlimited (q₂.model abs₂) c hu hlen
    rw [hm, key, ← hc₂] at hc₁
    cases h₁ : call ops₁ q₁ c with
    | ret p₁ =>
      cases h₂ : call ops₂ q₂ c with
      | ret p₂ =>
        rw [h₁, h₂] at hc₁
        simp only [Outcome.map, Outcome.ret.injEq, Prod.mk.injEq] at hc₁
        obtain ⟨r₁, q₁'⟩ := p₁
        obtain ⟨r₂, q₂'⟩ := p₂
        obtain ⟨hr, hm'⟩ := hc₁
        simp only at hr hm'
        subst hr
        rw [h₂] at hb1
        simp only [trace, h₁, h₂]
        rw [ih q₁' q₂' (hk₁ _ _ h₁) (hk₂ _ _ h₂) hm' hb1]
      | wait => rw [h₁, h₂] at hc₁; cases hc₁
      | fault => rw [h₁, h₂] at hc₁; cases hc₁
    | wait =>
      cases h₂ : call ops₂ q₂ c with
      | ret p₂ => rw [h₁, h₂] at hc₁; cases hc₁
      | wait => simp [trace, h₁, h₂]
      | fault => rw [h₁, h₂] at hc₁; cases hc₁
    | fault =>
      cases h₂ : call ops₂ q₂ c with
      | ret p₂ => rw [h₁, h₂] at hc₁; cases hc₁
      | wait => rw [h₁, h₂] at hc₁; cases hc₁
      | fault => simp [trace, h₁, h₂]

theorem PushImpl_finished_eq (ops : ContainerOps S V) {q q' : ConcurrentQueue S} {item : V}
    (h : PushImpl ops q item = .ret q') : q'.finished_ = q.finished_ := by
  unfold PushImpl at h
  split at h
  · cases h
  · split at h
    · cases h; rfl
    · split at h
      · cases h; rfl
      · cases h

theorem PopImpl_finished_eq (ops : ContainerOps S V) {q q' : ConcurrentQueue S}
    {result r' : V} {ok : Bool} (h : PopImpl ops q result = .ret (ok, r', q')) :
    q'.finished_ = q.finished_ := by
  unfold PopImpl at h
  split at h
  · cases h
  · split at h
    · split at h
      · cases h; rfl
      · cases h
    · split at h
      · cases h; rfl
      · cases h

theorem TryPopImpl_finished_eq (ops : ContainerOps S V) {q q' : ConcurrentQueue S}
    {result r' : V} {ok : Bool} (h : TryPopImpl ops q result = .ret (ok, r', q')) :
    q'.finished_ = q.finished_ := by
  unfold TryPopImpl at h
  split at h
  · split at h
    · cases h; rfl
    · cases h
  · cases h; rfl

theorem call_keeps_finished (ops : ContainerOps S V) {q q' : ConcurrentQueue S} {c : Call V}
    {r : Ret V} (hf : q.finished_ = true) (h : call ops q c = .ret (r, q')) :
    q'.finished_ = true := by
  cases c with
  | Push item =>
    simp only [call] at h
    split at h
    · rename_i h'
      cases h
      rw [PushImpl_finished_eq ops h']; exact hf
    · cases h
    · cases h
  | Pop result =>
    simp only [call] at h
    split at h
    · rename_i h'
      cases h
      rw [PopImpl_finished_eq ops h']; exact hf
    · cases h
    · cases h
  | TryPop result =>
    simp only [call] at h
    split at h
    · rename_i h'
      cases h
      rw [TryPopImpl_finished_eq ops h']; exact hf
    · cases h
    · cases h
  | SetFinish =>
    simp only [call, Outcome.ret.injEq, Prod.mk.injEq] at h
    rw [← h.2]; rfl
  | Size =>
    simp only [call, Outcome.ret.injEq, Prod.mk.injEq] at h
    rw [← h.2]; exact hf

theorem final_keeps_finished (ops : ContainerOps S V) (calls : List (Call V)) :
    ∀ q : ConcurrentQueue S, q.finished_ = true → (final ops q calls).finished_ = true := by
  induction calls with
  | nil => intro q hf; exact hf
  | cons c cs ih =>
    intro q hf
    cases h : call ops q c with
    | wait => simpa [final, h] using hf
    | fault => simpa [final, h] using hf
    | ret p =>
      obtain ⟨r, q'⟩ := p
      simp only [final, h]
      exact ih q' (call_keeps_finished ops hf h)

end ConcurrentQueue

/-- C6: for every capacity `C` of a bounded queue and every sequence of
`Push`, `Pop`, `TryPop`, `SetFinish` and `Size` calls in which the occupancy
is below `C` at every `Push`, the bounded queue of capacity `C` and the
unbounded queue, both constructed empty, give the same outcome for every
call of the sequence (the same returned values; a `Pop` that would wait on
one waits on the other), wherever `head_` and `tail_` stand in the ring. -/
theorem C6_bounded_matches_unbounded (T : Type) (C : Nat)
    (hC : C < ConcurrentQueueUnlimitedSize) (calls : List (Call T))
    (hb : pushesBelow (Storage.ops T ConcurrentQueueUnlimitedSize) C
      (ctor (Storage.ops T ConcurrentQueueUnlimitedSize)) calls = true) :
    trace (Storage.ops T C) (ctor (Storage.ops T C)) calls =
      trace (Storage.ops T ConcurrentQueueUnlimitedSize)
        (ctor (Storage.ops T ConcurrentQueueUnlimitedSize)) calls := by
  have R₁ := storage_refines T (Nat.le_of_lt hC)
  have R₂ : (Storage.ops T ConcurrentQueueUnlimitedSize).Refines
      (Storage.Inv ConcurrentQueueUnlimitedSize) (Storage.toList ConcurrentQueueUnlimitedSize) :=
    storage_refines T (Nat.le_refl SIZE_MAX)
  refine trace_eq_unlimited R₁ R₂ rfl calls _ _ R₁.ctor_inv R₂.ctor_inv ?_ hb
  simp only [model, ConcurrentQueue.ctor, R₁.ctor_abs, R₂.ctor_abs]

theorem C6_bounded_matches_unbounded_witness :
    2 < ConcurrentQueueUnlimitedSize ∧
    pushesBelow (Storage.ops Nat ConcurrentQueueUnlimitedSize) 2
      (ctor (Storage.ops Nat ConcurrentQueueUnlimitedSize))
      [.Push 1, .Push 2, .Size, .Pop 0, .Push 3, .Pop 0, .Pop 0, .Size, .Push 4, .TryPop 0,
        .TryPop 0, .SetFinish, .Push 5, .Pop 0] = true ∧
    trace (Storage.ops Nat 2) (ctor (Storage.ops Nat 2))
      [.Push 1, .Push 2, .Size, .Pop 0, .Push 3, .Pop 0, .Pop 0, .Size, .Push 4, .TryPop 0,
        .TryPop 0, .SetFinish, .Push 5, .Pop 0] =
      trace (Storage.ops Nat ConcurrentQueueUnlimitedSize)
        (ctor (Storage.ops Nat ConcurrentQueueUnlimitedSize))
        [.Push 1, .Push 2, .Size, .Pop 0, .Push 3, .Pop 0, .Pop 0, .Size, .Push 4, .TryPop 0,
          .TryPop 0, .SetFinish, .Push 5, .Pop 0] :=
  ⟨by decide, by decide, C6_bounded_matches_unbounded Nat 2 (by decide) _ (by decide)⟩

/-- C7, as stated, fails: a finished queue that is copy-assigned or
move-assigned from a queue that is not finished is no longer finished. -/
theorem C7_assignment_clears_finished :
    (SetFinish (ctor (Storage.ops Nat 5))).finished_ = true ∧
    (copyAssign (Storage.ops Nat 5) (fun _ => 0) (SetFinish (ctor (Storage.ops Nat 5)))
      (ctor (Storage.ops Nat 5))).1.finished_ = false ∧
    (moveAssign (Storage.ops Nat 5) (SetFinish (ctor (Storage.ops Nat 5)))
      (ctor (Storage.ops Nat 5))).1.finished_ = false := by
  decide

/-- C7, amended: once `finished_` is true it is true after every later
`Push`, `Pop`, `TryPop`, `SetFinish` and `Size` call (after each single call
that returns and after every sequence of calls), and the queue keeps it when
it is the source of a copy or move assignment; a copy or move assignment
into the queue gives it the source's flag. -/
theorem C7_finished_is_kept (T : Type) (MaxSize : Nat) (q : ConcurrentQueue (Storage T))
    (hf : q.finished_ = true) :
    (∀ (c : Call T) (r : Ret T) (q' : ConcurrentQueue (Storage T)),
      call (Storage.ops T MaxSize) q c = .ret (r, q') → q'.finished_ = true) ∧
    (∀ calls : List (Call T), (final (Storage.ops T MaxSize) q calls).finished_ = true) ∧
    (∀ (stale : Nat → T) (self : ConcurrentQueue (Storage T)),
      (copyAssign (Storage.ops T MaxSize) stale self q).2.finished_ = true ∧
        (moveAssign (Storage.ops T MaxSize) self q).2.finished_ = true) ∧
    (∀ (stale : Nat → T) (other : ConcurrentQueue (Storage T)),
      (copyAssign (Storage.ops T MaxSize) stale q other).1.finished_ = other.finished_ ∧
        (moveAssign (Storage.ops T MaxSize) q other).1.finished_ = other.finished_) :=
  ⟨fun _ _ _ h => call_keeps_finished _ hf h,
    fun calls => final_keeps_finished _ calls q hf,
    fun _ _ => ⟨hf, hf⟩, fun _ _ => ⟨rfl, rfl⟩⟩

theorem C7_finished_is_kept_witness :
    (SetFinish (ctor (Storage.ops Nat 2))).finished_ = true ∧
    (final (Storage.ops Nat 2) (SetFinish (ctor (Storage.ops Nat 2)))
      [.Push 1, .Pop 0, .TryPop 0, .Size, .SetFinish]).finished_ = true :=
  ⟨by decide,
    (C7_finished_is_kept Nat 2 (SetFinish (ctor (Storage.ops Nat 2))) (by decide)).2.1 _⟩

/-- C8: `SetFinish` is idempotent: two calls in a row leave the state that
one call leaves, and every later sequence of `Push`, `Pop`, `TryPop`,
`SetFinish` and `Size` calls has the same outcomes in both cases. -/
theorem C8_setfinish_idempotent (T : Type) (MaxSize : Nat) (q : ConcurrentQueue (Storage T)) :
    SetFinish (SetFinish q) = SetFinish q ∧
    (final (Storage.ops T MaxSize) q [.SetFinish, .SetFinish] =
      final (Storage.ops T MaxSize) q [.SetFinish]) ∧
    ∀ calls : List (Call T),
      trace (Storage.ops T MaxSize) (final (Storage.ops T MaxSize) q [.SetFinish, .SetFinish])
          calls =
        trace (Storage.ops T MaxSize) (final (Storage.ops T MaxSize) q [.SetFinish]) calls :=
  ⟨rfl, rfl, fun _ => rfl⟩

/-- C9: `SetFinish` changes only the finished flag: the storage, hence the
stored elements, their order and `Size()`, is the same after the call as
before it, and `finished_` is true afterwards. -/
theorem C9_setfinish_frame (T : Type) (MaxSize : Nat) (q : ConcurrentQueue (Storage T)) :
    (SetFinish q).data_ = q.data_ ∧
    (SetFinish q).data_.toList MaxSize = q.data_.toList MaxSize ∧
    Size (Storage.ops T MaxSize) (SetFinish q) = Size (Storage.ops T MaxSize) q ∧
    (SetFinish q).finished_ = true ∧
    call (Storage.ops T MaxSize) q .SetFinish = .ret (.void, SetFinish q) :=
  ⟨rfl, rfl, rfl, rfl, rfl⟩

/-- C10: in a well-formed queue state `Push` waits exactly when the queue
is bounded, holds `MaxSize` elements (the code's `Full()`) and is not
finished; `Pop` waits exactly when the queue holds no element (the code's
`Empty()`) and is not finished. Hence no `Push` and no `Pop` waits on a
finished queue, and `Push` never waits on an unbounded queue. -/
theorem C10_waiting (T : Type) (MaxSize : Nat) (h : MaxSize ≤ SIZE_MAX)
    (q : ConcurrentQueue (Storage T)) (hI : Storage.Inv MaxSize q.data_) (v r : T) :
    (PushImpl (Storage.ops T MaxSize) q v = .wait ↔
      (MaxSize ≠ ConcurrentQueueUnlimitedSize ∧ (q.data_.toList MaxSize).length = MaxSize ∧
        q.finished_ = false)) ∧
    (PushImpl (Storage.ops T MaxSize) q v = .wait ↔
      (LimitedSize (Storage.ops T MaxSize) = true ∧ (Storage.ops T MaxSize).Full q.data_ = true ∧
        q.finished_ = false)) ∧
    (PopImpl (Storage.ops T MaxSize) q r = .wait ↔
      (q.data_.toList MaxSize = [] ∧ q.finished_ = false)) ∧
    (PopImpl (Storage.ops T MaxSize) q r = .wait ↔
      ((Storage.ops T MaxSize).Empty q.data_ = true ∧ q.finished_ = false)) ∧
    (q.finished_ = true →
      PushImpl (Storage.ops T MaxSize) q v ≠ .wait ∧
        PopImpl (Storage.ops T MaxSize) q r ≠ .wait) ∧
    (MaxSize = ConcurrentQueueUnlimitedSize → PushImpl (Storage.ops T MaxSize) q v ≠ .wait) := by
  have R := storage_refines T h
  have hpush : PushImpl (Storage.ops T MaxSize) q v = .wait ↔
      (LimitedSize (Storage.ops T MaxSize) = true ∧
        (Storage.ops T MaxSize).Full q.data_ = true ∧ q.finished_ = false) := by
    unfold PushImpl
    constructor
    · intro hw
      split at hw
      · rename_i hc; simpa [and_assoc] using hc
      · split at hw
        · cases hw
        · split at hw <;> cases hw
    · intro hc
      rw [if_pos (by simpa [and_assoc] using hc)]
  have hpop : PopImpl (Storage.ops T MaxSize) q r = .wait ↔
      ((Storage.ops T MaxSize).Empty q.data_ = true ∧ q.finished_ = false) := by
    unfold PopImpl
    constructor
    · intro hw
      split at hw
      · rename_i hc; simpa using hc
      · split at hw
        · split at hw <;> cases hw
        · split at hw <;> cases hw
    · intro hc
      rw [if_pos (by simpa using hc)]
  have hlim : LimitedSize (Storage.ops T MaxSize) = true ↔
      MaxSize ≠ ConcurrentQueueUnlimitedSize := by
    simp [LimitedSize, Storage.ops]
  have hemp : (Storage.ops T MaxSize).Empty q.data_ = true ↔ q.data_.toList MaxSize = [] := by
    rw [R.empty_eq _ hI]; exact List.isEmpty_iff
  refine ⟨?_, hpush, ?_, hpop, ?_, ?_⟩
  · rw [hpush, hlim]
    constructor
    · rintro ⟨h1, h2, h3⟩
      rw [R.full_eq _ hI h1] at h2
      exact ⟨h1, by simpa using h2, h3⟩
    · rintro ⟨h1, h2, h3⟩
      refine ⟨h1, ?_, h3⟩
      rw [R.full_eq _ hI h1]
      simpa using h2
  · rw [hpop, hemp]
  · intro hf
    rw [Ne, Ne, hpush, hpop]
    simp [hf]
  · intro hu
    rw [Ne, hpush, hlim]
    simp [hu]

theorem C10_waiting_witness :
    2 ≤ SIZE_MAX ∧
    Storage.Inv 2 (final (Storage.ops Nat 2) (ctor (Storage.ops Nat 2)) [.Push 1, .Push 2]).data_ ∧
    PushImpl (Storage.ops Nat 2)
      (final (Storage.ops Nat 2) (ctor (Storage.ops Nat 2)) [.Push 1, .Push 2]) 3 = .wait :=
  ⟨by decide, reachable_inv Nat (by decide) _,
    (C10_waiting Nat 2 (by decide) _ (reachable_inv Nat (by decide) [.Push 1, .Push 2]) 3 0).1.mpr
      ⟨by decide, by decide, by decide⟩⟩

/-! ## Safety of the storage preconditions -/

namespace ConcurrentQueue
variable {S V : Type}

theorem model_call_ne_fault (MaxSize : Nat) (m : Model V) (c : Call V) :
    Model.call MaxSize m c ≠ .fault := by
  cases c with
  | Push item =>
    simp only [Model.call]
    split
    · intro h; cases h
    · split <;> (intro h; cases h)
  | Pop result =>
    simp only [Model.call]
    split
    · intro h; cases h
    · split <;> (intro h; cases h)
  | TryPop result =>
    simp only [Model.call]
    split <;> (intro h; cases h)
  | SetFinish => intro h; cases h
  | Size => intro h; cases h

/-- In a well-formed state no call fails an assertion. -/
theorem call_ne_fault {ops : ContainerOps S V} {I : S → Prop} {abs : S → List V}
    (R : ops.Refines I abs) (q : ConcurrentQueue S) (hI : I q.data_) (c : Call V) :
    call ops q c ≠ .fault := by
  intro h
  have h1 := (call_refines R q hI c).1
  rw [h] at h1
  exact model_call_ne_fault _ _ _ h1.symm

theorem trace_no_fault {ops : ContainerOps S V} {I : S → Prop} {abs : S → List V}
    (R : ops.Refines I abs) (calls : List (Call V)) :
    ∀ q : ConcurrentQueue S, I q.data_ → Outcome.fault ∉ trace ops q calls := by
  induction calls with
  | nil => intro q _; simp [trace]
  | cons c cs ih =>
    intro q hI
    cases h : call ops q c with
    | wait => simp [trace, h]
    | fault => exact absurd h (call_ne_fault R q hI c)
    | ret p =>
      obtain ⟨r, q'⟩ := p
      simp only [trace, h, List.mem_cons, not_or]
      exact ⟨(fun h' => nomatch h'), ih q' (call_ret_model R hI h).2⟩

end ConcurrentQueue

/-- C11: on a queue constructed empty (any `MaxSize`), no call of any
sequence of `Push`, `Pop`, `TryPop`, `SetFinish` and `Size` calls fails an
assertion or reads an invalid slot, and the same holds for one more call in
the state the sequence reaches. In that state: when `PushImpl` gets to
`data_.Push` (it does not wait and the queue is not finished) the storage
`Push` succeeds and, for a bounded queue, `Size() < MaxSize`; when `PopImpl`
or `TryPopImpl` gets to `data_.Pop` (the storage is not `Empty()`) the
storage `Pop` succeeds and `Size() > 0`; and when `PopImpl` gets to its
failure branch (it does not wait and the storage is `Empty()`) the queue is
finished. -/
theorem C11_preconditions_hold (T : Type) (MaxSize : Nat) (h : MaxSize ≤ SIZE_MAX)
    (calls : List (Call T)) :
    Outcome.fault ∉ trace (Storage.ops T MaxSize) (ctor (Storage.ops T MaxSize)) calls ∧
    (∀ c : Call T,
      call (Storage.ops T MaxSize)
        (final (Storage.ops T MaxSize) (ctor (Storage.ops T MaxSize)) calls) c ≠ .fault) ∧
    (∀ v : T,
      PushImpl (Storage.ops T MaxSize)
          (final (Storage.ops T MaxSize) (ctor (Storage.ops T MaxSize)) calls) v ≠ .wait →
        (final (Storage.ops T MaxSize) (ctor (Storage.ops T MaxSize)) calls).finished_ = false →
        (∃ d, (Storage.ops T MaxSize).Push
            (final (Storage.ops T MaxSize) (ctor (Storage.ops T MaxSize)) calls).data_ v =
              some d) ∧
          (MaxSize ≠ ConcurrentQueueUnlimitedSize →
            Size (Storage.ops T MaxSize)
              (final (Storage.ops T MaxSize) (ctor (Storage.ops T MaxSize)) calls) < MaxSize)) ∧
    ((Storage.ops T MaxSize).Empty
        (final (Storage.ops T MaxSize) (ctor (Storage.ops T MaxSize)) calls).data_ = false →
      (∃ p, (Storage.ops T MaxSize).Pop
          (final (Storage.ops T MaxSize) (ctor (Storage.ops T MaxSize)) calls).data_ = some p) ∧
        0 < Size (Storage.ops T MaxSize)
          (final (Storage.ops T MaxSize) (ctor (Storage.ops T MaxSize)) calls)) ∧
    (∀ r : T,
      PopImpl (Storage.ops T MaxSize)
          (final (Storage.ops T MaxSize) (ctor (Storage.ops T MaxSize)) calls) r ≠ .wait →
        (Storage.ops T MaxSize).Empty
          (final (Storage.ops T MaxSize) (ctor (Storage.ops T MaxSize)) calls).data_ = true →
        (final (Storage.ops T MaxSize) (ctor (Storage.ops T MaxSize)) calls).finished_ =
          true) := by
  have R := storage_refines T h
  have hI := reachable_inv T h calls
  refine ⟨trace_no_fault R calls _ R.ctor_inv, fun c => call_ne_fault R _ hI c, ?_, ?_, ?_⟩
  all_goals
    generalize final (Storage.ops T MaxSize) (ctor (Storage.ops T MaxSize)) calls = q at hI ⊢
  · intro v hw hf
    rcases PushImpl_refines R q hI v with ⟨_, _, _, e⟩ | ⟨hf', _⟩ | ⟨_, hlt, d, e, hd, ha⟩
    · exact absurd e hw
    · rw [hf] at hf'; cases hf'
    · obtain ⟨d', e', _, _⟩ := R.push q.data_ v hI (fun hne => hlt (by simpa [LimitedSize] using hne))
      refine ⟨⟨d', e'⟩, fun hne => ?_⟩
      have hs : Size (Storage.ops T MaxSize) q = (Storage.toList MaxSize q.data_).length :=
        R.size_eq _ hI
      rw [hs]
      exact hlt (by simpa [LimitedSize] using hne)
  · intro he
    have hemp := R.empty_eq _ hI
    rw [he] at hemp
    cases ha : Storage.toList MaxSize q.data_ with
    | nil => rw [ha] at hemp; cases hemp
    | cons x xs =>
      obtain ⟨d, e, _, _⟩ := R.pop _ x xs hI ha
      refine ⟨⟨_, e⟩, ?_⟩
      have hs : Size (Storage.ops T MaxSize) q = (Storage.toList MaxSize q.data_).length :=
        R.size_eq _ hI
      rw [hs, ha]; simp
  · intro r hw he
    cases hf : q.finished_ with
    | true => rfl
    | false =>
      exfalso; apply hw
      simp [PopImpl, he, hf]

theorem C11_preconditions_hold_witness :
    2 ≤ SIZE_MAX ∧
    Outcome.fault ∉ trace (Storage.ops Nat 2) (ctor (Storage.ops Nat 2))
      [.Push 1, .Push 2, .Pop 0, .Size, .Push 3, .TryPop 0, .Pop 0, .TryPop 0, .SetFinish,
        .Push 4, .Pop 0] :=
  ⟨by decide, (C11_preconditions_hold Nat 2 (by decide) _).1⟩

/-! ## Token queues -/

theorem token_ops_MaxSize (C : Nat) : (TokenStorage.ops C).MaxSize = C := rfl

theorem token_ops_Push_limited (C : Nat) (c : ConcurrentQueueContainerVoid) (v : Unit) :
    (TokenStorage.ops C).Push (.limited c) v = (c.Push C).map .limited := rfl

theorem token_ops_Push_unlimited (C : Nat) (c : ConcurrentQueueContainerVoidUnlimited)
    (v : Unit) : (TokenStorage.ops C).Push (.unlimited c) v = c.Push.map .unlimited := rfl

theorem token_ops_Pop_limited (C : Nat) (c : ConcurrentQueueContainerVoid) :
    (TokenStorage.ops C).Pop (.limited c) = c.Pop.map (fun c' => ((), .limited c')) := rfl

theorem token_ops_Pop_unlimited (C : Nat) (c : ConcurrentQueueContainerVoidUnlimited) :
    (TokenStorage.ops C).Pop (.unlimited c) = c.Pop.map (fun c' => ((), .unlimited c')) := rfl

theorem token_ops_Size (C : Nat) (s : TokenStorage) : (TokenStorage.ops C).Size s = s.count := by
  cases s <;> rfl

theorem token_ops_Empty (C : Nat) (s : TokenStorage) :
    (TokenStorage.ops C).Empty s = (s.count == 0) := by
  cases s <;> rfl

theorem token_ops_Full_limited (C : Nat) (c : ConcurrentQueueContainerVoid) :
    (TokenStorage.ops C).Full (.limited c) = (c.size_ == C) := rfl

theorem token_ops_Full_unlimited (C : Nat) (c : ConcurrentQueueContainerVoidUnlimited) :
    (TokenStorage.ops C).Full (.unlimited c) = false := rfl

namespace ConcurrentQueue
variable {S V : Type}

set_option linter.unusedTactic false in
set_option linter.unreachableTactic false in
set_option linter.unnecessarySeqFocus false in
/-- A call on a well-formed token queue agrees with its list-level
description, provided a `Push` does not find `SIZE_MAX` tokens. -/
theorem token_call_refines {C : Nat} (q : ConcurrentQueue TokenStorage)
    (hI : TokenStorage.Inv C q.data_) (c : Call Unit)
    (hb : ∀ item, c = .Push item → q.data_.count < SIZE_MAX) :
    (call (TokenStorage.ops C) q c).map (fun p => (p.1, p.2.model TokenStorage.toList)) =
        Model.call C (q.model TokenStorage.toList) c ∧
      ∀ r q', call (TokenStorage.ops C) q c = .ret (r, q') → TokenStorage.Inv C q'.data_ := by
  obtain ⟨d, f⟩ := q
  cases d with
  | limited t =>
    obtain ⟨n⟩ := t
    obtain ⟨hne, hle⟩ := hI
    have heq : True := trivial
    replace hle : n ≤ C := hle
    cases c with
    | Push item =>
      cases f
      · by_cases hn : n = C
        · subst hn
          simp [call, PushImpl, LimitedSize, token_ops_MaxSize, token_ops_Push_limited, token_ops_Push_unlimited, token_ops_Full_limited, token_ops_Full_unlimited, 
            Outcome.map, Model.call, model, TokenStorage.toList, TokenStorage.count, hne] <;>
          first | exact hne | exact ⟨hne, by omega⟩ | exact ⟨heq, by omega⟩ | omega
        · have hlt : n < C := by omega
          simp [call, PushImpl, LimitedSize, token_ops_MaxSize, token_ops_Push_limited, token_ops_Push_unlimited, token_ops_Full_limited, token_ops_Full_unlimited, 
            ConcurrentQueueContainerVoid.Push, Outcome.map, Model.call, model,
            TokenStorage.toList, TokenStorage.count, hne, hn, hlt, TokenStorage.Inv,
            List.replicate_succ'] <;>
          first | exact hne | exact ⟨hne, by omega⟩ | exact ⟨heq, by omega⟩ | omega
      · simp [call, PushImpl, LimitedSize, token_ops_MaxSize, token_ops_Push_limited, token_ops_Push_unlimited, token_ops_Full_limited, token_ops_Full_unlimited, Outcome.map, Model.call, model,
          TokenStorage.toList, TokenStorage.count, TokenStorage.Inv] <;>
          first | exact hne | exact ⟨hne, by omega⟩ | exact ⟨heq, by omega⟩ | omega
    | Pop result =>
      cases n with
      | zero =>
        cases f
        · simp [call, PopImpl, token_ops_Pop_limited, token_ops_Pop_unlimited, token_ops_Empty, 
            Outcome.map, Model.call, model, TokenStorage.toList, TokenStorage.count] <;>
          first | exact hne | exact ⟨hne, by omega⟩ | exact ⟨heq, by omega⟩ | omega
        · simp [call, PopImpl, token_ops_Pop_limited, token_ops_Pop_unlimited, token_ops_Empty, 
            Outcome.map, Model.call, model, TokenStorage.toList, TokenStorage.count,
            TokenStorage.Inv] <;>
          first | exact hne | exact ⟨hne, by omega⟩ | exact ⟨heq, by omega⟩ | omega
      | succ n =>
        simp [call, PopImpl, token_ops_Pop_limited, token_ops_Pop_unlimited, token_ops_Empty, 
          ConcurrentQueueContainerVoid.Pop, Outcome.map, Model.call, model,
          TokenStorage.toList, TokenStorage.count, TokenStorage.Inv, List.replicate_succ] <;>
          first | exact hne | exact ⟨hne, by omega⟩ | exact ⟨heq, by omega⟩ | omega
    | TryPop result =>
      cases n with
      | zero =>
        simp [call, TryPopImpl, token_ops_Pop_limited, token_ops_Pop_unlimited, token_ops_Empty, 
          Outcome.map, Model.call, model, TokenStorage.toList, TokenStorage.count,
          TokenStorage.Inv] <;>
          first | exact hne | exact ⟨hne, by omega⟩ | exact ⟨heq, by omega⟩ | omega
      | succ n =>
        simp [call, TryPopImpl, token_ops_Pop_limited, token_ops_Pop_unlimited, token_ops_Empty, 
          ConcurrentQueueContainerVoid.Pop, Outcome.map, Model.call, model,
          TokenStorage.toList, TokenStorage.count, TokenStorage.Inv, List.replicate_succ] <;>
          first | exact hne | exact ⟨hne, by omega⟩ | exact ⟨heq, by omega⟩ | omega
    | SetFinish =>
      simp [call, SetFinish, Outcome.map, Model.call, model, TokenStorage.Inv] <;>
          first | exact hne | exact ⟨hne, by omega⟩ | exact ⟨heq, by omega⟩ | omega
    | Size =>
      simp [call, Size, token_ops_Size,  Outcome.map,
        Model.call, model, TokenStorage.toList, TokenStorage.count, TokenStorage.Inv] <;>
          first | exact hne | exact ⟨hne, by omega⟩ | exact ⟨heq, by omega⟩ | omega
  | unlimited t =>
    obtain ⟨n⟩ := t
    obtain ⟨heq, hle⟩ := hI
    have hne : True := trivial
    replace hle : n ≤ SIZE_MAX := hle
    cases c with
    | Push item =>
      have hlt : n < SIZE_MAX := hb item rfl
      have hmod : (n + 1) % (SIZE_MAX + 1) = n + 1 := Nat.mod_eq_of_lt (by omega)
      cases f
      · simp [call, PushImpl, LimitedSize, token_ops_MaxSize, token_ops_Push_limited, token_ops_Push_unlimited, token_ops_Full_limited, token_ops_Full_unlimited, ConcurrentQueueContainerVoidUnlimited.Push,
          Outcome.map, Model.call, model, TokenStorage.toList, TokenStorage.count, heq, hmod,
          TokenStorage.Inv, List.replicate_succ'] <;>
          first | exact hne | exact ⟨hne, by omega⟩ | exact ⟨heq, by omega⟩ | omega
      · simp [call, PushImpl, LimitedSize, token_ops_MaxSize, token_ops_Push_limited, token_ops_Push_unlimited, token_ops_Full_limited, token_ops_Full_unlimited, Outcome.map, Model.call, model,
          TokenStorage.toList, TokenStorage.count, TokenStorage.Inv, heq] <;>
          first | exact hne | exact ⟨hne, by omega⟩ | exact ⟨heq, by omega⟩ | omega
    | Pop result =>
      cases n with
      | zero =>
        cases f
        · simp [call, PopImpl, token_ops_Pop_limited, token_ops_Pop_unlimited, token_ops_Empty, 
            Outcome.map, Model.call, model, TokenStorage.toList, TokenStorage.count] <;>
          first | exact hne | exact ⟨hne, by omega⟩ | exact ⟨heq, by omega⟩ | omega
        · simp [call, PopImpl, token_ops_Pop_limited, token_ops_Pop_unlimited, token_ops_Empty, 
            Outcome.map, Model.call, model, TokenStorage.toList, TokenStorage.count,
            TokenStorage.Inv] <;>
          first | exact hne | exact ⟨hne, by omega⟩ | exact ⟨heq, by omega⟩ | omega
      | succ n =>
        simp [call, PopImpl, token_ops_Pop_limited, token_ops_Pop_unlimited, token_ops_Empty, 
          ConcurrentQueueContainerVoidUnlimited.Pop, Outcome.map, Model.call, model,
          TokenStorage.toList, TokenStorage.count, TokenStorage.Inv, List.replicate_succ] <;>
          first | exact hne | exact ⟨hne, by omega⟩ | exact ⟨heq, by omega⟩ | omega
    | TryPop result =>
      cases n with
      | zero =>
        simp [call, TryPopImpl, token_ops_Pop_limited, token_ops_Pop_unlimited, token_ops_Empty, 
          Outcome.map, Model.call, model, TokenStorage.toList, TokenStorage.count,
          TokenStorage.Inv] <;>
          first | exact hne | exact ⟨hne, by omega⟩ | exact ⟨heq, by omega⟩ | omega
      | succ n =>
        simp [call, TryPopImpl, token_ops_Pop_limited, token_ops_Pop_unlimited, token_ops_Empty, 
          ConcurrentQueueContainerVoidUnlimited.Pop, Outcome.map, Model.call, model,
          TokenStorage.toList, TokenStorage.count, TokenStorage.Inv, List.replicate_succ] <;>
          first | exact hne | exact ⟨hne, by omega⟩ | exact ⟨heq, by omega⟩ | omega
    | SetFinish =>
      simp [call, SetFinish, Outcome.map, Model.call, model, TokenStorage.Inv] <;>
          first | exact hne | exact ⟨hne, by omega⟩ | exact ⟨heq, by omega⟩ | omega
    | Size =>
      simp [call, Size, token_ops_Size, 
        Outcome.map, Model.call, model, TokenStorage.toList, TokenStorage.count,
        TokenStorage.Inv] <;>
          first | exact hne | exact ⟨hne, by omega⟩ | exact ⟨heq, by omega⟩ | omega

theorem model_call_token (C : Nat) (m : Model V) (c : Call V) :
    (Model.call C m c).map (fun p => (p.1.token, p.2.token)) =
      Model.call C m.token c.token := by
  obtain ⟨l, f⟩ := m
  cases c with
  | Push item =>
    simp only [Model.call, Call.token, Model.token, List.length_map]
    split
    · rfl
    · split <;> simp [Outcome.map, Ret.token, Model.token]
  | Pop result =>
    cases l with
    | nil => cases f <;> simp [Model.call, Call.token, Model.token, Outcome.map, Ret.token]
    | cons x xs => simp [Model.call, Call.token, Model.token, Outcome.map, Ret.token]
  | TryPop result =>
    cases l with
    | nil => simp [Model.call, Call.token, Model.token, Outcome.map, Ret.token]
    | cons x xs => simp [Model.call, Call.token, Model.token, Outcome.map, Ret.token]
  | SetFinish => simp [Model.call, Call.token, Model.token, Outcome.map, Ret.token]
  | Size => simp [Model.call, Call.token, Model.token, Outcome.map, Ret.token]

theorem trace_token {ops : ContainerOps S V} {I : S → Prop} {abs : S → List V}
    (R : ops.Refines I abs) (calls : List (Call V)) :
    ∀ (q : ConcurrentQueue S) (t : ConcurrentQueue TokenStorage), I q.data_ →
      TokenStorage.Inv ops.MaxSize t.data_ →
      (q.model abs).token = t.model TokenStorage.toList →
      pushesBelow ops SIZE_MAX q calls = true →
      (trace ops q calls).map (Outcome.map Ret.token) =
          trace (TokenStorage.ops ops.MaxSize) t (calls.map Call.token) ∧
        Size ops (final ops q calls) =
          Size (TokenStorage.ops ops.MaxSize)
            (final (TokenStorage.ops ops.MaxSize) t (calls.map Call.token)) := by
  induction calls with
  | nil =>
    intro q t hI _ hm _
    refine ⟨rfl, ?_⟩
    show ops.Size q.data_ = (TokenStorage.ops ops.MaxSize).Size t.data_
    rw [R.size_eq _ hI, token_ops_Size]
    have := congrArg (fun m => m.elems.length) hm
    simpa [Model.token, model, TokenStorage.toList] using this
  | cons c cs ih =>
    intro q t hI hIt hm hb
    simp only [pushesBelow, Bool.and_eq_true] at hb
    obtain ⟨hb0, hb1⟩ := hb
    have hcount : t.data_.count = (abs q.data_).length := by
      have := congrArg (fun m => m.elems.length) hm
      simpa [Model.token, model, TokenStorage.toList] using this.symm
    have hlen : ∀ item, c.token = .Push item → t.data_.count < SIZE_MAX := by
      intro item hc
      cases c with
      | Push v =>
        have : Size ops q < SIZE_MAX := by simpa using hb0
        have hs : Size ops q = (abs q.data_).length := R.size_eq _ hI
        omega
      | Pop r => cases hc
      | TryPop r => cases hc
      | SetFinish => cases hc
      | Size => cases hc
    obtain ⟨hc₁, hk₁⟩ := call_refines R q hI c
    obtain ⟨hc₂, hk₂⟩ := token_call_refines t hIt c.token hlen
    have key := model_call_token ops.MaxSize (q.model abs) c
    rw [hm, ← hc₂, ← hc₁] at key
    cases h₁ : call ops q c with
    | ret p₁ =>
      cases h₂ : call (TokenStorage.ops ops.MaxSize) t c.token with
      | ret p₂ =>
        rw [h₁, h₂] at key
        simp only [Outcome.map, Outcome.ret.injEq, Prod.mk.injEq] at key
        obtain ⟨r₁, q'⟩ := p₁
        obtain ⟨r₂, t'⟩ := p₂
        obtain ⟨hr, hm'⟩ := key
        simp only at hr hm'
        rw [h₁] at hb1
        obtain ⟨ih1, ih2⟩ := ih q' t' (hk₁ _ _ h₁) (hk₂ _ _ h₂) hm' hb1
        simp [trace, final, h₁, h₂, Outcome.map, hr, ih1, ih2]
      | wait => rw [h₁, h₂] at key; cases key
      | fault => rw [h₁, h₂] at key; cases key
    | wait =>
      cases h₂ : call (TokenStorage.ops ops.MaxSize) t c.token with
      | ret p₂ => rw [h₁, h₂] at key; cases key
      | wait =>
        simp only [trace, final, h₁, h₂, List.map_cons, Outcome.map, List.map_nil, true_and]
        show ops.Size q.data_ = (TokenStorage.ops ops.MaxSize).Size t.data_
        rw [R.size_eq _ hI, token_ops_Size, hcount]
      | fault => rw [h₁, h₂] at key; cases key
    | fault =>
      cases h₂ : call (TokenStorage.ops ops.MaxSize) t c.token with
      | ret p₂ => rw [h₁, h₂] at key; cases key
      | wait => rw [h₁, h₂] at key; cases key
      | fault =>
        simp only [trace, final, h₁, h₂, List.map_cons, Outcome.map, List.map_nil, true_and]
        show ops.Size q.data_ = (TokenStorage.ops ops.MaxSize).Size t.data_
        rw [R.size_eq _ hI, token_ops_Size, hcount]

theorem pushesBelow_of_limited {ops : ContainerOps S V} {I : S → Prop} {abs : S → List V}
    (R : ops.Refines I abs) (hlim : ops.MaxSize < SIZE_MAX) (calls : List (Call V)) :
    ∀ q : ConcurrentQueue S, I q.data_ → pushesBelow ops SIZE_MAX q calls = true := by
  have hne : ops.MaxSize ≠ ConcurrentQueueUnlimitedSize := Nat.ne_of_lt hlim
  induction calls with
  | nil => intro _ _; rfl
  | cons c cs ih =>
    intro q hI
    have hs : Size ops q < SIZE_MAX := by
      show ops.Size q.data_ < SIZE_MAX
      rw [R.size_eq _ hI]
      exact Nat.lt_of_le_of_lt (R.size_le _ hI hne) hlim
    simp only [pushesBelow, Bool.and_eq_true]
    refine ⟨?_, ?_⟩
    · cases c <;> simp [hs]
    · cases h : call ops q c with
      | ret p => exact ih p.2 (call_ret_model R hI h).2
      | wait => rfl
      | fault => rfl

end ConcurrentQueue

/-- C12: for every capacity `C` (the unlimited size included) and every
sequence of `Push`, `Pop`, `TryPop`, `SetFinish` and `Size` calls, the token
queue `ConcurrentQueue<void, C>` and the payload queue `ConcurrentQueue<T, C>`,
both constructed empty and driven by the same calls (whatever values the
payload `Push` calls carry), have the same outcome call by call up to the
payload: the same `bool` for every `Pop` and `TryPop`, the same number for
every `Size`, a wait where the other waits; and `Size()` is the same after
the sequence. For the unlimited size this is for sequences that keep fewer
than `SIZE_MAX` elements in the queue at each `Push`, so that the token
counter does not wrap. In particular, on a token queue of capacity 5, five
`Push` calls are followed by five `Pop` calls that return `true`; a sixth
`Pop` then waits, and returns `false` once the queue is finished. -/
theorem C12_token_matches_payload (T : Type) (C : Nat) (h : C ≤ SIZE_MAX)
    (calls : List (Call T))
    (hb : C = ConcurrentQueueUnlimitedSize →
      pushesBelow (Storage.ops T C) SIZE_MAX (ctor (Storage.ops T C)) calls = true) :
    ((trace (Storage.ops T C) (ctor (Storage.ops T C)) calls).map (Outcome.map Ret.token) =
      trace (TokenStorage.ops C) (ctor (TokenStorage.ops C)) (calls.map Call.token)) ∧
    (Size (Storage.ops T C) (final (Storage.ops T C) (ctor (Storage.ops T C)) calls) =
      Size (TokenStorage.ops C)
        (final (TokenStorage.ops C) (ctor (TokenStorage.ops C)) (calls.map Call.token))) ∧
    (trace (TokenStorage.ops 5) (ctor (TokenStorage.ops 5))
        [.Push (), .Push (), .Push (), .Push (), .Push (),
          .Pop (), .Pop (), .Pop (), .Pop (), .Pop (), .Pop ()] =
      [.ret .void, .ret .void, .ret .void, .ret .void, .ret .void,
        .ret (.pop true ()), .ret (.pop true ()), .ret (.pop true ()), .ret (.pop true ()),
        .ret (.pop true ()), .wait]) ∧
    (trace (TokenStorage.ops 5) (ctor (TokenStorage.ops 5))
        [.Push (), .Push (), .Push (), .Push (), .Push (),
          .Pop (), .Pop (), .Pop (), .Pop (), .Pop (), .SetFinish, .Pop ()] =
      [.ret .void, .ret .void, .ret .void, .ret .void, .ret .void,
        .ret (.pop true ()), .ret (.pop true ()), .ret (.pop true ()), .ret (.pop true ()),
        .ret (.pop true ()), .ret .void, .ret (.pop false ())]) := by
  have R := storage_refines T h
  have hb' : pushesBelow (Storage.ops T C) SIZE_MAX (ctor (Storage.ops T C)) calls = true := by
    by_cases hC : C = ConcurrentQueueUnlimitedSize
    · exact hb hC
    · exact pushesBelow_of_limited R (Nat.lt_of_le_of_ne h hC) calls _ R.ctor_inv
  have hIt : TokenStorage.Inv C (ctor (TokenStorage.ops C)).data_ := by
    by_cases hC : C = ConcurrentQueueUnlimitedSize
    · simp [ConcurrentQueue.ctor, TokenStorage.ops, hC, TokenStorage.Inv,
        ConcurrentQueueContainerVoidUnlimited.ctor]
    · simp [ConcurrentQueue.ctor, TokenStorage.ops, hC, TokenStorage.Inv,
        ConcurrentQueueContainerVoid.ctor]
  have hm : ((ctor (Storage.ops T C)).model (Storage.toList C)).token =
      (ctor (TokenStorage.ops C)).model TokenStorage.toList := by
    have e := R.ctor_abs
    simp only [model, Model.token, ConcurrentQueue.ctor, e]
    by_cases hC : C = ConcurrentQueueUnlimitedSize
    · simp [TokenStorage.ops, hC,
        TokenStorage.toList, TokenStorage.count, ConcurrentQueueContainerVoidUnlimited.ctor]
    · simp [TokenStorage.ops, hC,
        TokenStorage.toList, TokenStorage.count, ConcurrentQueueContainerVoid.ctor]
  obtain ⟨h1, h2⟩ := trace_token R calls _ _ R.ctor_inv hIt hm hb'
  exact ⟨h1, h2, by decide, by decide⟩

theorem C12_token_matches_payload_witness :
    ConcurrentQueueUnlimitedSize ≤ SIZE_MAX ∧
    (ConcurrentQueueUnlimitedSize = ConcurrentQueueUnlimitedSize →
      pushesBelow (Storage.ops Nat ConcurrentQueueUnlimitedSize) SIZE_MAX
        (ctor (Storage.ops Nat ConcurrentQueueUnlimitedSize))
        [.Push 4, .Size, .Pop 0, .TryPop 0, .Push 5, .Push 6, .SetFinish, .Pop 0, .Size] =
        true) ∧
    (trace (Storage.ops Nat ConcurrentQueueUnlimitedSize)
        (ctor (Storage.ops Nat ConcurrentQueueUnlimitedSize))
        [.Push 4, .Size, .Pop 0, .TryPop 0, .Push 5, .Push 6, .SetFinish, .Pop 0,
          .Size]).map (Outcome.map Ret.token) =
      trace (TokenStorage.ops ConcurrentQueueUnlimitedSize)
        (ctor (TokenStorage.ops ConcurrentQueueUnlimitedSize))
        [.Push (), .Size, .Pop (), .TryPop (), .Push (), .Push (), .SetFinish, .Pop (), .Size] :=
  ⟨by decide, fun _ => by decide,
    (C12_token_matches_payload Nat ConcurrentQueueUnlimitedSize (by decide)
      [.Push 4, .Size, .Pop 0, .TryPop 0, .Push 5, .Push 6, .SetFinish, .Pop 0, .Size]
      (fun _ => by decide)).1⟩

/-! ## Copy and move -/

namespace internal.ConcurrentQueueContainer
variable {T : Type}

theorem copySlots_length (stale : Nat → T) (l : List (Option T)) :
    ∀ i, (copySlots stale i l).length = l.length := by
  induction l with
  | nil => intro i; rfl
  | cons s ss ih => intro i; simp [copySlots, ih]

theorem copySlots_getElem? (stale : Nat → T) (l : List (Option T)) :
    ∀ i k : Nat, (copySlots stale i l)[k]? =
      (l[k]?).map (fun s : Option T => some (s.getD (stale (i + k)))) := by
  induction l with
  | nil => intro i k; simp [copySlots]
  | cons s ss ih =>
    intro i k
    cases k with
    | zero => simp [copySlots]
    | succ k =>
      simp only [copySlots, List.getElem?_cons_succ, ih]
      have e : i + 1 + k = i + (k + 1) := by omega
      rw [e]

/-- The copy holds the live elements of the source in the same slots. -/
theorem Copied_live (stale : Nat → T) (c : ConcurrentQueueContainer T) {k : Nat} {v : T}
    (h : c.data_[k]? = some (some v)) : (c.Copied stale).data_[k]? = some (some v) := by
  show (copySlots stale 0 c.data_)[k]? = _
  rw [copySlots_getElem?, h]
  rfl

/-- In the copy a slot that was vacated in the source holds an object. -/
theorem Copied_vacated (stale : Nat → T) (c : ConcurrentQueueContainer T) {k : Nat}
    (h : c.data_[k]? = some none) : (c.Copied stale).data_[k]? = some (some (stale k)) := by
  show (copySlots stale 0 c.data_)[k]? = _
  rw [copySlots_getElem?, h]
  simp

theorem Copied_toList (stale : Nat → T) {C : Nat} {c : ConcurrentQueueContainer T}
    (hlive : ∀ i, i < c.size_ → ∃ v, c.data_[(c.head_ + i) % C]? = some (some v)) :
    (c.Copied stale).toList C = c.toList C := by
  show List.filterMap (slot C (c.Copied stale)) (List.range c.size_) = _
  apply List.filterMap_congr
  intro i hi
  obtain ⟨v, hv⟩ := hlive i (List.mem_range.mp hi)
  show ((c.Copied stale).data_[(c.head_ + i) % C]?).join = (c.data_[(c.head_ + i) % C]?).join
  rw [Copied_live stale c hv, hv]

end internal.ConcurrentQueueContainer

theorem storage_copied_toList {T : Type} (stale : Nat → T) {MaxSize : Nat} {s : Storage T}
    (hI : Storage.Inv MaxSize s) :
    ((Storage.ops T MaxSize).Copied stale s).toList MaxSize = s.toList MaxSize := by
  cases s with
  | limited c =>
    obtain ⟨_, hc⟩ := hI
    show (c.Copied stale).toList MaxSize = c.toList MaxSize
    split at hc
    · subst hc; rfl
    · exact ConcurrentQueueContainer.Copied_toList stale hc.live
  | unlimited c => rfl

theorem storage_copied_size {T : Type} (stale : Nat → T) (MaxSize : Nat) (s : Storage T) :
    (Storage.ops T MaxSize).Size ((Storage.ops T MaxSize).Copied stale s) =
      (Storage.ops T MaxSize).Size s := by
  cases s <;> rfl

/-- C14: copy construction and copy assignment from a well-formed source
give the new queue the source's elements in the source's front-to-back
order, the source's `Size()` and the source's finished flag, and leave the
source as it was. For the ring buffer the copy has the source's `head_`,
`tail_` and `size_` and a vector of the same length that holds every live
element of the source in the same slot; a slot that `Pop` had vacated in the
source holds a copy-constructed object in the copy (`stale k` at index
`k`). -/
theorem C14_copy (T : Type) (MaxSize : Nat) (stale : Nat → T)
    (self other : ConcurrentQueue (Storage T)) (hI : Storage.Inv MaxSize other.data_) :
    ((copyAssign (Storage.ops T MaxSize) stale self other).1.data_.toList MaxSize =
        other.data_.toList MaxSize ∧
      Size (Storage.ops T MaxSize) (copyAssign (Storage.ops T MaxSize) stale self other).1 =
        Size (Storage.ops T MaxSize) other ∧
      (copyAssign (Storage.ops T MaxSize) stale self other).1.finished_ = other.finished_ ∧
      (copyAssign (Storage.ops T MaxSize) stale self other).2 = other) ∧
    ((copyCtor (Storage.ops T MaxSize) stale other).1.data_.toList MaxSize =
        other.data_.toList MaxSize ∧
      Size (Storage.ops T MaxSize) (copyCtor (Storage.ops T MaxSize) stale other).1 =
        Size (Storage.ops T MaxSize) other ∧
      (copyCtor (Storage.ops T MaxSize) stale other).1.finished_ = other.finished_ ∧
      (copyCtor (Storage.ops T MaxSize) stale other).2 = other) ∧
    (∀ c : ConcurrentQueueContainer T, other.data_ = .limited c →
      ∃ c', (copyAssign (Storage.ops T MaxSize) stale self other).1.data_ = .limited c' ∧
        (copyCtor (Storage.ops T MaxSize) stale other).1.data_ = .limited c' ∧
        c'.head_ = c.head_ ∧ c'.tail_ = c.tail_ ∧ c'.size_ = c.size_ ∧
        c'.data_.length = c.data_.length ∧
        (∀ (k : Nat) (v : T), c.data_[k]? = some (some v) → c'.data_[k]? = some (some v)) ∧
        (∀ k : Nat, c.data_[k]? = some none → c'.data_[k]? = some (some (stale k)))) := by
  refine ⟨⟨storage_copied_toList stale hI, storage_copied_size stale MaxSize _, rfl, rfl⟩,
    ⟨storage_copied_toList stale hI, storage_copied_size stale MaxSize _, rfl, rfl⟩, ?_⟩
  intro c hc
  refine ⟨c.Copied stale, ?_, ?_, rfl, rfl, rfl, ?_, ?_, ?_⟩
  · show (Storage.ops T MaxSize).Copied stale other.data_ = _
    rw [hc]; rfl
  · show (Storage.ops T MaxSize).Copied stale other.data_ = _
    rw [hc]; rfl
  · exact ConcurrentQueueContainer.copySlots_length stale c.data_ 0
  · intro k v h
    exact ConcurrentQueueContainer.Copied_live stale c h
  · intro k h
    exact ConcurrentQueueContainer.Copied_vacated stale c h

theorem C14_copy_witness :
    Storage.Inv 3 (final (Storage.ops Nat 3) (ctor (Storage.ops Nat 3))
      [.Push 1, .Push 2, .Pop 0]).data_ ∧
    (final (Storage.ops Nat 3) (ctor (Storage.ops Nat 3)) [.Push 1, .Push 2, .Pop 0]).data_ =
      .limited { data_ := [none, some 2], head_ := 1, tail_ := 2, size_ := 1 } ∧
    (copyCtor (Storage.ops Nat 3) (fun _ => 1)
      (final (Storage.ops Nat 3) (ctor (Storage.ops Nat 3)) [.Push 1, .Push 2, .Pop 0])).1.data_ =
      .limited { data_ := [some 1, some 2], head_ := 1, tail_ := 2, size_ := 1 } ∧
    (copyAssign (Storage.ops Nat 3) (fun _ => 1) (ctor (Storage.ops Nat 3))
      (final (Storage.ops Nat 3) (ctor (Storage.ops Nat 3))
        [.Push 1, .Push 2, .Pop 0])).1.data_.toList 3 =
      (final (Storage.ops Nat 3) (ctor (Storage.ops Nat 3))
        [.Push 1, .Push 2, .Pop 0]).data_.toList 3 :=
  ⟨reachable_inv Nat (by decide) _, by decide, by decide,
    (C14_copy Nat 3 (fun _ => 1) (ctor (Storage.ops Nat 3)) _
      (reachable_inv Nat (by decide) [.Push 1, .Push 2, .Pop 0])).1.1⟩

/-- C15, the code at a bounded queue of capacity 5 that holds the one
element 1: after move construction (and after move assignment) the
destination has the source's storage, with its element, `head_`, `tail_`
and `size_`; the source keeps `size_ = 1` and `tail_ = 1` over an empty
vector, so its `Size()` is 1 while it holds no element, the storage
invariant fails, and `TryPop` on it reads a slot that does not exist. -/
theorem C15_move_leaves_stale_source :
    (moveCtor (Storage.ops Nat 5)
        (final (Storage.ops Nat 5) (ctor (Storage.ops Nat 5)) [.Push 1])).1.data_ =
      .limited { data_ := [some 1], head_ := 0, tail_ := 1, size_ := 1 } ∧
    (moveCtor (Storage.ops Nat 5)
        (final (Storage.ops Nat 5) (ctor (Storage.ops Nat 5)) [.Push 1])).2.data_ =
      .limited { data_ := [], head_ := 0, tail_ := 1, size_ := 1 } ∧
    (moveAssign (Storage.ops Nat 5) (ctor (Storage.ops Nat 5))
        (final (Storage.ops Nat 5) (ctor (Storage.ops Nat 5)) [.Push 1])).2.data_ =
      .limited { data_ := [], head_ := 0, tail_ := 1, size_ := 1 } ∧
    Size (Storage.ops Nat 5)
      (moveCtor (Storage.ops Nat 5)
        (final (Storage.ops Nat 5) (ctor (Storage.ops Nat 5)) [.Push 1])).2 = 1 ∧
    (moveCtor (Storage.ops Nat 5)
        (final (Storage.ops Nat 5) (ctor (Storage.ops Nat 5)) [.Push 1])).2.data_.toList 5 =
      [] ∧
    TryPopImpl (Storage.ops Nat 5)
      (moveCtor (Storage.ops Nat 5)
        (final (Storage.ops Nat 5) (ctor (Storage.ops Nat 5)) [.Push 1])).2 0 = .fault ∧
    ¬ Storage.Inv 5
      (moveCtor (Storage.ops Nat 5)
        (final (Storage.ops Nat 5) (ctor (Storage.ops Nat 5)) [.Push 1])).2.data_ := by
  refine ⟨by decide, by decide, by decide, by decide, by decide, by decide, ?_⟩
  have e : (moveCtor (Storage.ops Nat 5)
      (final (Storage.ops Nat 5) (ctor (Storage.ops Nat 5)) [.Push 1])).2.data_ =
      .limited { data_ := [], head_ := 0, tail_ := 1, size_ := 1 } := by decide
  rw [e]
  rintro ⟨_, hI⟩
  rw [if_neg (by decide)] at hI
  obtain ⟨v, hv⟩ := hI.live 0 (by decide)
  simp at hv

/-! ## The public interface -/

/-- C16, as stated, fails: the interface has no call that behaves as the
described `tryPush`. On a bounded queue of capacity 1, no call both returns
with the queue unchanged when it is full (holding 7, not finished) and
inserts an element when it is empty: the one inserting call, `Push`, waits
on the full queue. -/
theorem C16_no_try_push :
    ¬ ∃ c : Call Nat,
      (∃ r, call (Storage.ops Nat 1)
          (final (Storage.ops Nat 1) (ctor (Storage.ops Nat 1)) [.Push 7]) c =
        .ret (r, final (Storage.ops Nat 1) (ctor (Storage.ops Nat 1)) [.Push 7])) ∧
      (∃ r q', call (Storage.ops Nat 1) (ctor (Storage.ops Nat 1)) c = .ret (r, q') ∧
        q'.data_.toList 1 ≠ []) := by
  have e : final (Storage.ops Nat 1) (ctor (Storage.ops Nat 1)) [.Push 7] =
      { data_ := .limited { data_ := [some 7], head_ := 0, tail_ := 0, size_ := 1 },
        finished_ := false } := by decide
  have e0 : ctor (Storage.ops Nat 1) =
      { data_ := .limited { data_ := [], head_ := 0, tail_ := 0, size_ := 0 },
        finished_ := false } := by decide
  rw [e, e0]
  rintro ⟨c, ⟨r, h1⟩, ⟨r', q', h2, h3⟩⟩
  cases c with
  | Push item =>
    have : call (Storage.ops Nat 1)
        { data_ := .limited { data_ := [some 7], head_ := 0, tail_ := 0, size_ := 1 },
          finished_ := false } (.Push item) = .wait := by
      simp [call, PushImpl, LimitedSize, Storage.ops, ConcurrentQueueContainer.Full,
        ConcurrentQueueUnlimitedSize, SIZE_MAX]
    rw [this] at h1
    cases h1
  | Pop result =>
    have : call (Storage.ops Nat 1)
        { data_ := .limited { data_ := [], head_ := 0, tail_ := 0, size_ := 0 },
          finished_ := false } (.Pop result) = .wait := by
      simp [call, PopImpl, Storage.ops, ConcurrentQueueContainer.Empty]
    rw [this] at h2
    cases h2
  | TryPop result =>
    have : call (Storage.ops Nat 1)
        { data_ := .limited { data_ := [], head_ := 0, tail_ := 0, size_ := 0 },
          finished_ := false } (.TryPop result) =
        .ret (.pop false result,
          { data_ := .limited { data_ := [], head_ := 0, tail_ := 0, size_ := 0 },
            finished_ := false }) := by
      simp [call, TryPopImpl, Storage.ops, ConcurrentQueueContainer.Empty]
    rw [this] at h2
    cases h2
    exact h3 (by decide)
  | SetFinish =>
    simp only [call, Outcome.ret.injEq, Prod.mk.injEq] at h2
    rw [← h2.2] at h3
    exact h3 (by decide)
  | Size =>
    simp only [call, Outcome.ret.injEq, Prod.mk.injEq] at h2
    rw [← h2.2] at h3
    exact h3 (by decide)

/-- C16, amended: the interface has no non-blocking push. In a well-formed
queue state the only call that adds an element is `Push(value)`, which
returns `void`: it waits when the queue is bounded, holds `MaxSize`
elements and is not finished; it returns with the queue unchanged when the
queue is finished; otherwise it returns with `value` inserted at the
back. -/
theorem C16_push_is_blocking (T : Type) (MaxSize : Nat) (h : MaxSize ≤ SIZE_MAX)
    (q : ConcurrentQueue (Storage T)) (hI : Storage.Inv MaxSize q.data_) (v : T) :
    (∀ (c : Call T) (r : Ret T) (q' : ConcurrentQueue (Storage T)),
      call (Storage.ops T MaxSize) q c = .ret (r, q') →
        (q.data_.toList MaxSize).length < (q'.data_.toList MaxSize).length →
        ∃ item, c = .Push item ∧ r = .void) ∧
    (MaxSize ≠ ConcurrentQueueUnlimitedSize → (q.data_.toList MaxSize).length = MaxSize →
      q.finished_ = false → call (Storage.ops T MaxSize) q (.Push v) = .wait) ∧
    (q.finished_ = true → call (Storage.ops T MaxSize) q (.Push v) = .ret (.void, q)) ∧
    (q.finished_ = false →
      (MaxSize ≠ ConcurrentQueueUnlimitedSize → (q.data_.toList MaxSize).length < MaxSize) →
      ∃ q', call (Storage.ops T MaxSize) q (.Push v) = .ret (.void, q') ∧
        q'.data_.toList MaxSize = q.data_.toList MaxSize ++ [v] ∧
        q'.finished_ = false) := by
  have R := storage_refines T h
  refine ⟨?_, ?_, ?_, ?_⟩
  · intro c r q' hc hlen
    obtain ⟨hm, _⟩ := call_ret_model R hI hc
    cases c with
    | Push item =>
      refine ⟨item, rfl, ?_⟩
      simp only [Model.call] at hm
      split at hm
      · cases hm
      · split at hm <;>
          (simp only [Outcome.ret.injEq, Prod.mk.injEq] at hm; exact hm.1.symm)
    | Pop result =>
      exfalso
      simp only [Model.call, model] at hm
      split at hm
      · rename_i x xs hx
        simp only [Outcome.ret.injEq, Prod.mk.injEq, Model.mk.injEq] at hm
        rw [hx, ← hm.2.1] at hlen
        simp at hlen
      · split at hm
        · simp only [Outcome.ret.injEq, Prod.mk.injEq, Model.mk.injEq] at hm
          rw [← hm.2.1] at hlen
          exact Nat.lt_irrefl _ hlen
        · cases hm
    | TryPop result =>
      exfalso
      simp only [Model.call, model] at hm
      split at hm
      · rename_i x xs hx
        simp only [Outcome.ret.injEq, Prod.mk.injEq, Model.mk.injEq] at hm
        rw [hx, ← hm.2.1] at hlen
        simp at hlen
      · simp only [Outcome.ret.injEq, Prod.mk.injEq, Model.mk.injEq] at hm
        rw [← hm.2.1] at hlen
        exact Nat.lt_irrefl _ hlen
    | SetFinish =>
      exfalso
      simp only [Model.call, model, Outcome.ret.injEq, Prod.mk.injEq, Model.mk.injEq] at hm
      rw [← hm.2.1] at hlen
      exact Nat.lt_irrefl _ hlen
    | Size =>
      exfalso
      simp only [Model.call, model, Outcome.ret.injEq, Prod.mk.injEq, Model.mk.injEq] at hm
      rw [← hm.2.1] at hlen
      exact Nat.lt_irrefl _ hlen
  · intro hne hlen hf
    rcases PushImpl_refines R q hI v with ⟨_, _, _, e⟩ | ⟨hf', _⟩ | ⟨_, hlt, _⟩
    · simp [call, e]
    · rw [hf] at hf'; cases hf'
    · have := hlt (by simpa [LimitedSize] using hne)
      have hlen' : (Storage.toList MaxSize q.data_).length = MaxSize := hlen
      exact absurd hlen' (Nat.ne_of_lt this)
  · intro hf
    have : PushImpl (Storage.ops T MaxSize) q v = .ret q := by simp [PushImpl, hf]
    simp [call, this]
  · intro hf hlt
    rcases PushImpl_refines R q hI v with ⟨hl, hlen, _, _⟩ | ⟨hf', _⟩ | ⟨_, _, d, e, _, ha⟩
    · have := hlt (by simpa [LimitedSize] using hl)
      have hlen' : (q.data_.toList MaxSize).length = MaxSize := hlen
      exact absurd hlen' (Nat.ne_of_lt this)
    · rw [hf] at hf'; cases hf'
    · exact ⟨{ q with data_ := d }, by simp [call, e], ha, hf⟩

theorem C16_push_is_blocking_witness :
    1 ≤ SIZE_MAX ∧
    Storage.Inv 1 (final (Storage.ops Nat 1) (ctor (Storage.ops Nat 1)) [.Push 7]).data_ ∧
    call (Storage.ops Nat 1) (final (Storage.ops Nat 1) (ctor (Storage.ops Nat 1)) [.Push 7])
      (.Push 8) = .wait :=
  ⟨by decide, reachable_inv Nat (by decide) _,
    (C16_push_is_blocking Nat 1 (by decide) _
      (reachable_inv Nat (by decide) [.Push 7]) 8).2.1 (by decide) (by decide) (by decide)⟩

/-- C17: `UnlimitedSize()` is true exactly when `MaxSize` is
`ConcurrentQueueUnlimitedSize`, which is the largest `std::size_t` value
`2 ^ 64 - 1`; `LimitedSize()` is its negation. Both are functions of the
template argument alone: no queue state enters them, for payload and for
token queues alike. The default `MaxSize` gives an unlimited queue and
`MaxSize = 10` a limited one. -/
theorem C17_size_queries (T : Type) (MaxSize : Nat) :
    (UnlimitedSize (Storage.ops T MaxSize) = true ↔ MaxSize = ConcurrentQueueUnlimitedSize) ∧
    (UnlimitedSize (TokenStorage.ops MaxSize) = true ↔
      MaxSize = ConcurrentQueueUnlimitedSize) ∧
    ConcurrentQueueUnlimitedSize = 2 ^ 64 - 1 ∧
    (∀ n : Nat, n < 2 ^ 64 ↔ n ≤ ConcurrentQueueUnlimitedSize) ∧
    LimitedSize (Storage.ops T MaxSize) = !UnlimitedSize (Storage.ops T MaxSize) ∧
    LimitedSize (TokenStorage.ops MaxSize) = !UnlimitedSize (TokenStorage.ops MaxSize) ∧
    UnlimitedSize (Storage.ops T ConcurrentQueueUnlimitedSize) = true ∧
    LimitedSize (Storage.ops T ConcurrentQueueUnlimitedSize) = false ∧
    UnlimitedSize (Storage.ops T 10) = false ∧
    LimitedSize (Storage.ops T 10) = true := by
  refine ⟨?_, ?_, rfl, ?_, ?_, ?_, ?_, ?_, ?_, ?_⟩
  · simp [UnlimitedSize, Storage.ops]
  · simp [UnlimitedSize, TokenStorage.ops]
  · intro n
    simp only [ConcurrentQueueUnlimitedSize, SIZE_MAX]
    omega
  · simp [LimitedSize, UnlimitedSize, bne]
  · simp [LimitedSize, UnlimitedSize, bne]
  · simp [UnlimitedSize, Storage.ops]
  · simp [LimitedSize, Storage.ops]
  · simp [UnlimitedSize, Storage.ops, ConcurrentQueueUnlimitedSize, SIZE_MAX]
  · simp [LimitedSize, Storage.ops, ConcurrentQueueUnlimitedSize, SIZE_MAX]

/-! ## Ring buffer: reachable states -/

namespace internal.ConcurrentQueueContainer
variable {T : Type}

theorem step_inv {C : Nat} (h1 : 1 ≤ C) (h2 : C ≤ SIZE_MAX) {c c' : ConcurrentQueueContainer T}
    (hc : c.Inv C) {k : ContainerCall T} (hs : step C c k = some c') : c'.Inv C := by
  cases k with
  | Push v =>
    simp only [step] at hs
    have hlt : c.size_ < C := by
      by_contra hn
      rw [Push, if_neg hn] at hs
      cases hs
    obtain ⟨c'', e, hc'', _⟩ := ring_push_spec h1 h2 hc hlt v
    rw [e] at hs
    cases hs
    exact hc''
  | Pop =>
    simp only [step] at hs
    have hlt : 0 < c.size_ := by
      by_contra hn
      rw [Pop, if_neg hn] at hs
      cases hs
    obtain ⟨v, c'', e, hc'', _⟩ := ring_pop_spec h1 h2 hc hlt
    rw [e] at hs
    cases hs
    exact hc''

theorem run_inv {C : Nat} (h1 : 1 ≤ C) (h2 : C ≤ SIZE_MAX) (ks : List (ContainerCall T)) :
    ∀ {c c' : ConcurrentQueueContainer T}, c.Inv C → run C c ks = some c' → c'.Inv C := by
  induction ks with
  | nil => intro c c' hc hr; cases hr; exact hc
  | cons k ks ih =>
    intro c c' hc hr
    simp only [run] at hr
    cases hs : step C c k with
    | none => rw [hs] at hr; cases hr
    | some c₁ =>
      rw [hs] at hr
      exact ih (step_inv h1 h2 hc hs) hr

theorem run_of_meets {C : Nat} (h1 : 1 ≤ C) (h2 : C ≤ SIZE_MAX) (ks : List (ContainerCall T)) :
    ∀ {c : ConcurrentQueueContainer T}, c.Inv C → meets C c ks = true →
      (run C c ks).isSome = true := by
  induction ks with
  | nil => intro c _ _; rfl
  | cons k ks ih =>
    intro c hc hm
    simp only [meets, Bool.and_eq_true] at hm
    obtain ⟨hp, hm'⟩ := hm
    have hs : ∃ c₁, step C c k = some c₁ := by
      cases k with
      | Push v =>
        have hlt : c.size_ < C := by simpa [pre] using hp
        obtain ⟨c'', e, _⟩ := ring_push_spec h1 h2 hc hlt v
        exact ⟨c'', e⟩
      | Pop =>
        have hlt : 0 < c.size_ := by simpa [pre] using hp
        obtain ⟨v, c'', e, _⟩ := ring_pop_spec h1 h2 hc hlt
        exact ⟨c'', by simp [step, e]⟩
    obtain ⟨c₁, hs⟩ := hs
    rw [hs] at hm'
    simp only [run, hs]
    exact ih (step_inv h1 h2 hc hs) hm'

end internal.ConcurrentQueueContainer

section RingReachable

open internal.ConcurrentQueueContainer

/-- C18: for the ring buffer of capacity `C >= 1`, every sequence of `Push`
and `Pop` calls that meet their preconditions runs through from the
constructed state, and every state so reached has `head_ < C`, `tail_ < C`,
`size_ <= C` and `tail_ = (head_ + size_) mod C`; `Empty()` holds exactly
when `size_ = 0` and `Full()` exactly when `size_ = C`. -/
theorem C18_ring_invariant (T : Type) (C : Nat) (h1 : 1 ≤ C) (h2 : C ≤ SIZE_MAX)
    (ks : List (ContainerCall T)) :
    (meets C (ctor : ConcurrentQueueContainer T) ks = true →
      (run C (ctor : ConcurrentQueueContainer T) ks).isSome = true) ∧
    ∀ c : ConcurrentQueueContainer T, run C ctor ks = some c →
      c.head_ < C ∧ c.tail_ < C ∧ c.size_ ≤ C ∧ c.tail_ = (c.head_ + c.size_) % C ∧
        (c.Empty = true ↔ c.size_ = 0) ∧ (c.Full C = true ↔ c.size_ = C) := by
  refine ⟨run_of_meets h1 h2 ks (ring_ctor_inv h1), ?_⟩
  intro c hr
  have hc := run_inv h1 h2 ks (ring_ctor_inv h1) hr
  exact ⟨hc.head_lt, hc.tail_lt, hc.size_le, hc.tail_eq, by simp [ConcurrentQueueContainer.Empty], by simp [ConcurrentQueueContainer.Full]⟩

theorem C18_ring_invariant_witness :
    1 ≤ 3 ∧ 3 ≤ SIZE_MAX ∧
    meets 3 (ctor : ConcurrentQueueContainer Nat)
      [.Push 1, .Push 2, .Pop, .Push 3, .Push 4, .Pop, .Pop, .Push 5] = true ∧
    (run 3 (ctor : ConcurrentQueueContainer Nat)
      [.Push 1, .Push 2, .Pop, .Push 3, .Push 4, .Pop, .Pop, .Push 5]).isSome = true :=
  ⟨by decide, by decide, by decide,
    (C18_ring_invariant Nat 3 (by decide) (by decide)
      [.Push 1, .Push 2, .Pop, .Push 3, .Push 4, .Pop, .Pop, .Push 5]).1 (by decide)⟩

/-- C19: in a state of the ring buffer (capacity `C >= 1`) reached by
`Push` and `Pop` calls, `Push(v)` with `size_ < C` succeeds, stores `v` at
index `tail_`, sets `tail_` to `(tail_ + 1) mod C`, adds one to `size_` and
leaves `head_` and every other slot as it was; `Pop` with `size_ > 0`
succeeds, returns the element at index `head_`, sets `head_` to
`(head_ + 1) mod C`, takes one from `size_` and leaves `tail_` and every
other slot as it was. -/
theorem C19_push_pop_effect (T : Type) (C : Nat) (h1 : 1 ≤ C) (h2 : C ≤ SIZE_MAX)
    (ks : List (ContainerCall T)) (c : ConcurrentQueueContainer T)
    (hr : run C ctor ks = some c) :
    (∀ v : T, c.size_ < C →
      ∃ c', c.Push C v = some c' ∧ c'.data_[c.tail_]? = some (some v) ∧
        c'.tail_ = (c.tail_ + 1) % C ∧ c'.size_ = c.size_ + 1 ∧ c'.head_ = c.head_ ∧
        ∀ k, k ≠ c.tail_ → c'.data_[k]? = c.data_[k]?) ∧
    (0 < c.size_ →
      ∃ v c', c.Pop C = some (v, c') ∧ c.data_[c.head_]? = some (some v) ∧
        c'.head_ = (c.head_ + 1) % C ∧ c'.size_ = c.size_ - 1 ∧ c'.tail_ = c.tail_ ∧
        ∀ k, k ≠ c.head_ → c'.data_[k]? = c.data_[k]?) := by
  have hc := run_inv h1 h2 ks (ring_ctor_inv h1) hr
  refine ⟨?_, ?_⟩
  · intro v hlt
    have e := Push_eq h1 h2 hc hlt v
    have hd := push_data_getElem? hc v
    obtain ⟨c'', e', hc'', _⟩ := ring_push_spec h1 h2 hc hlt v
    rw [e] at e'
    refine ⟨_, e, ?_, rfl, rfl, rfl, ?_⟩
    · show (if c.data_.length ≤ c.tail_ then c.data_ ++ [some v]
        else c.data_.set c.tail_ (some v))[c.tail_]? = some (some v)
      rw [hd _ hc.tail_lt, if_pos rfl]
    · intro k hk
      show (if c.data_.length ≤ c.tail_ then c.data_ ++ [some v]
        else c.data_.set c.tail_ (some v))[k]? = c.data_[k]?
      by_cases hkC : k < C
      · rw [hd k hkC, if_neg hk]
      · have hl := hc.length_le
        have hl' : (if c.data_.length ≤ c.tail_ then c.data_ ++ [some v]
            else c.data_.set c.tail_ (some v)).length ≤ C := by
          have := hc''.length_le
          cases e'
          exact this
        rw [List.getElem?_eq_none (by omega), List.getElem?_eq_none (by omega)]
  · intro hlt
    obtain ⟨v, c', e, _, _, _, hv⟩ := ring_pop_spec h1 h2 hc hlt
    have e' := Pop_eq h1 h2 hc hlt hv
    refine ⟨v, _, e', hv, rfl, rfl, rfl, ?_⟩
    intro k hk
    show (c.data_.set c.head_ none)[k]? = c.data_[k]?
    rw [List.getElem?_set, if_neg (Ne.symm hk)]

theorem C19_push_pop_effect_witness :
    1 ≤ 3 ∧ 3 ≤ SIZE_MAX ∧
    run 3 (ctor : ConcurrentQueueContainer Nat) [.Push 1, .Push 2, .Pop, .Push 3] =
      some { data_ := [none, some 2, some 3], head_ := 1, tail_ := 0, size_ := 2 } ∧
    ∃ c', ({ data_ := [none, some 2, some 3], head_ := 1, tail_ := 0, size_ := 2 } :
          ConcurrentQueueContainer Nat).Push 3 4 = some c' ∧
      c'.data_[0]? = some (some 4) ∧ c'.tail_ = (0 + 1) % 3 :=
  ⟨by decide, by decide, by decide,
    let ⟨c', e, hd, ht, _⟩ :=
      (C19_push_pop_effect Nat 3 (by decide) (by decide) [.Push 1, .Push 2, .Pop, .Push 3]
        { data_ := [none, some 2, some 3], head_ := 1, tail_ := 0, size_ := 2 }
        (by decide)).1 4 (by decide)
    ⟨c', e, hd, ht⟩⟩

end RingReachable

/-! ## The vector behind the ring; failed pops -/

section RingVector

open internal.ConcurrentQueueContainer

/-- C21: in every state of the ring buffer (capacity `C >= 1`) reached from
the constructed one by `Push` and `Pop` calls, the length `L` of the vector
`data_` satisfies `tail_ <= L <= C`, and `L < C` implies `L = tail_`. Hence
when `Push` (with `size_ < C`) takes its append branch, `L <= tail_`, the
vector is exactly `tail_` long, the new element lands at index `tail_`, and
the vector is still at most `C` long afterwards; in the other branch the
length does not change. -/
theorem C21_vector_length (T : Type) (C : Nat) (h1 : 1 ≤ C) (h2 : C ≤ SIZE_MAX)
    (ks : List (ContainerCall T)) (c : ConcurrentQueueContainer T)
    (hr : run C ctor ks = some c) :
    (c.tail_ ≤ c.data_.length ∧ c.data_.length ≤ C ∧
      (c.data_.length < C → c.data_.length = c.tail_)) ∧
    (∀ v : T, c.size_ < C → c.data_.length ≤ c.tail_ →
      c.data_.length = c.tail_ ∧
        ∃ c', c.Push C v = some c' ∧ c'.data_ = c.data_ ++ [some v] ∧
          c'.data_[c.tail_]? = some (some v) ∧ c'.data_.length = c.tail_ + 1 ∧
          c'.data_.length ≤ C) ∧
    (∀ v : T, c.size_ < C → ¬ c.data_.length ≤ c.tail_ →
      ∃ c', c.Push C v = some c' ∧ c'.data_ = c.data_.set c.tail_ (some v) ∧
        c'.data_.length = c.data_.length) := by
  have hc := run_inv h1 h2 ks (ring_ctor_inv h1) hr
  have htl := hc.tail_lt
  have hle := hc.length_le
  have heq := hc.length_eq
  refine ⟨⟨?_, hle, heq⟩, ?_, ?_⟩
  · by_cases hL : c.data_.length < C
    · rw [heq hL]
    · omega
  · intro v hlt hL
    have hLt : c.data_.length = c.tail_ := heq (by omega)
    refine ⟨hLt, _, Push_eq h1 h2 hc hlt v, ?_, ?_, ?_, ?_⟩
    · show (if c.data_.length ≤ c.tail_ then c.data_ ++ [some v]
        else c.data_.set c.tail_ (some v)) = c.data_ ++ [some v]
      rw [if_pos hL]
    · show (if c.data_.length ≤ c.tail_ then c.data_ ++ [some v]
        else c.data_.set c.tail_ (some v))[c.tail_]? = some (some v)
      rw [if_pos hL, ← hLt]
      simp
    · show (if c.data_.length ≤ c.tail_ then c.data_ ++ [some v]
        else c.data_.set c.tail_ (some v)).length = c.tail_ + 1
      rw [if_pos hL]
      simp [hLt]
    · show (if c.data_.length ≤ c.tail_ then c.data_ ++ [some v]
        else c.data_.set c.tail_ (some v)).length ≤ C
      rw [if_pos hL]
      simp; omega
  · intro v hlt hL
    refine ⟨_, Push_eq h1 h2 hc hlt v, ?_, ?_⟩
    · show (if c.data_.length ≤ c.tail_ then c.data_ ++ [some v]
        else c.data_.set c.tail_ (some v)) = c.data_.set c.tail_ (some v)
      rw [if_neg hL]
    · show (if c.data_.length ≤ c.tail_ then c.data_ ++ [some v]
        else c.data_.set c.tail_ (some v)).length = c.data_.length
      rw [if_neg hL]
      simp

theorem C21_vector_length_witness :
    1 ≤ 3 ∧ 3 ≤ SIZE_MAX ∧
    run 3 (ctor : ConcurrentQueueContainer Nat) [.Push 1, .Pop, .Push 2] =
      some { data_ := [none, some 2], head_ := 1, tail_ := 2, size_ := 1 } ∧
    ∃ c', ({ data_ := [none, some 2], head_ := 1, tail_ := 2, size_ := 1 } :
          ConcurrentQueueContainer Nat).Push 3 5 = some c' ∧
      c'.data_ = [none, some 2] ++ [some 5] :=
  ⟨by decide, by decide, by decide,
    let ⟨_, c', e, hd, _⟩ :=
      (C21_vector_length Nat 3 (by decide) (by decide) [.Push 1, .Pop, .Push 2]
        { data_ := [none, some 2], head_ := 1, tail_ := 2, size_ := 1 }
        (by decide)).2.1 5 (by decide) (by decide)
    ⟨c', e, hd⟩⟩

end RingVector

namespace ConcurrentQueue
variable {S V : Type}

theorem PopImpl_false (ops : ContainerOps S V) {q q' : ConcurrentQueue S} {result r' : V}
    (h : PopImpl ops q result = .ret (false, r', q')) : r' = result ∧ q' = q := by
  unfold PopImpl at h
  split at h
  · cases h
  · split at h
    · split at h
      · cases h
      · cases h
    · split at h
      · cases h; exact ⟨rfl, rfl⟩
      · cases h

theorem TryPopImpl_false (ops : ContainerOps S V) {q q' : ConcurrentQueue S} {result r' : V}
    (h : TryPopImpl ops q result = .ret (false, r', q')) : r' = result ∧ q' = q := by
  unfold TryPopImpl at h
  split at h
  · split at h
    · cases h
    · cases h
  · cases h; exact ⟨rfl, rfl⟩

end ConcurrentQueue

/-- C22: whenever `Pop(result)` or `TryPop(result)` returns `false`, in any
queue state (bounded or unbounded), the caller's variable holds the value
it held before the call and the queue is in the state it was in: the same
stored elements, the same `Size()` and the same finished flag. -/
theorem C22_failed_pop_changes_nothing (T : Type) (MaxSize : Nat)
    (q q' : ConcurrentQueue (Storage T)) (result r' : T)
    (h : PopImpl (Storage.ops T MaxSize) q result = .ret (false, r', q') ∨
      TryPopImpl (Storage.ops T MaxSize) q result = .ret (false, r', q')) :
    r' = result ∧ q' = q ∧
      q'.data_.toList MaxSize = q.data_.toList MaxSize ∧
      Size (Storage.ops T MaxSize) q' = Size (Storage.ops T MaxSize) q ∧
      q'.finished_ = q.finished_ := by
  have key : r' = result ∧ q' = q := by
    rcases h with h | h
    · exact PopImpl_false _ h
    · exact TryPopImpl_false _ h
  obtain ⟨rfl, rfl⟩ := key
  exact ⟨rfl, rfl, rfl, rfl, rfl⟩

theorem C22_failed_pop_changes_nothing_witness :
    PopImpl (Storage.ops Nat 2) (SetFinish (ctor (Storage.ops Nat 2))) 9 =
      .ret (false, 9, SetFinish (ctor (Storage.ops Nat 2))) ∧
    TryPopImpl (Storage.ops Nat 2) (ctor (Storage.ops Nat 2)) 9 =
      .ret (false, 9, ctor (Storage.ops Nat 2)) ∧
    Size (Storage.ops Nat 2) (SetFinish (ctor (Storage.ops Nat 2))) =
      Size (Storage.ops Nat 2) (SetFinish (ctor (Storage.ops Nat 2))) ∧
    (ctor (Storage.ops Nat 2)).finished_ = (ctor (Storage.ops Nat 2)).finished_ :=
  ⟨by decide, by decide,
    (C22_failed_pop_changes_nothing Nat 2 (SetFinish (ctor (Storage.ops Nat 2)))
      (SetFinish (ctor (Storage.ops Nat 2))) 9 9 (Or.inl (by decide))).2.2.2.1,
    (C22_failed_pop_changes_nothing Nat 2 (ctor (Storage.ops Nat 2))
      (ctor (Storage.ops Nat 2)) 9 9 (Or.inr (by decide))).2.2.2.2⟩

/-! ## Ring buffer: what is destroyed, and when -/

namespace internal.ConcurrentQueueContainer
variable {T : Type}

end internal.ConcurrentQueueContainer

section RingLifetime

open internal.ConcurrentQueueContainer

end RingLifetime

end fox_cq
